import Mathlib

/-!
Verification development for the athena-query-client library.

The definitions below are shallow embeddings of the TypeScript sources:
`src/athena.ts` (the execution poller), `src/query-results-processor.ts`
(the S3 streaming batch processor and the mapped paginated row processor),
and `src/json-file-appender.ts` (the append-only JSON array writer).
External collaborators (the Athena service, S3, the filesystem) are modelled
as explicit response scripts and state values; asynchronous effects are
modelled as pure state passing, the fixed poll delay as a trace event.
-/

set_option maxRecDepth 4000

namespace AthenaClient

/-- Lifecycle states of a query execution as delivered by the service.
`other` captures any unrecognized state string (the switch default). -/
inductive QState where
  | queued
  | running
  | succeeded
  | failed
  | cancelled
  | other (s : String)
  deriving DecidableEq, Repr

/-- One response of `GetQueryExecutionCommand`:
`response.QueryExecution?.Status?.State` and `...?.StateChangeReason`,
each of which may be absent. -/
structure PollResp where
  state : Option QState
  stateChangeReason : Option String
  deriving DecidableEq, Repr

/-- The distinct failure classifications built by `#checkQueryExecutionState`
and `query`; each constructor corresponds to one `new Error(...)` site. -/
inductive QueryFailure where
  /-- `Query failed: <reason>` for state FAILED, carrying the resolved reason. -/
  | queryFailed (reason : String)
  /-- `Query was cancelled` for state CANCELLED. -/
  | cancelled
  /-- `Unknown query state: <state>` for any other state value
  (`none` when the response carried no state at all). -/
  | unknownState (state : Option QState)
  /-- `Failed to start query: QueryExecutionId is undefined`. -/
  | noExecutionId
  /-- transport-level failure of an underlying `send` (script exhausted). -/
  | transport
  /-- `Query execution failed: <inner>`: the wrapper added by `query`. -/
  | wrapped (inner : QueryFailure)
  deriving DecidableEq, Repr

/-- The JS expression `reason || 'Unknown reason'`: both an absent and an
empty-string `StateChangeReason` fall back to the default. -/
def resolveReason (r : Option String) : String :=
  match r with
  | some s => if s = "" then "Unknown reason" else s
  | none => "Unknown reason"

/-- Action taken for one poll response: the body of the `switch` in
`#checkQueryExecutionState`. `continue_` is the `of(null)` branch taken
for QUEUED and RUNNING. -/
inductive PollAction where
  | resolve
  | fail (f : QueryFailure)
  | continue_
  deriving DecidableEq, Repr

/-- The `switch (state)` of `#checkQueryExecutionState`. -/
def classifyState (resp : PollResp) : PollAction :=
  match resp.state with
  | some .succeeded => .resolve
  | some .failed => .fail (.queryFailed (resolveReason resp.stateChangeReason))
  | some .cancelled => .fail .cancelled
  | some .queued => .continue_
  | some .running => .continue_
  | some (.other s) => .fail (.unknownState (some (.other s)))
  | none => .fail (.unknownState none)

/-- Observable events of the poll loop: a `GetQueryExecutionCommand` send,
and the `timer(1000)` delay (milliseconds). -/
inductive Event where
  | fetchStatus
  | wait (ms : Nat)
  deriving DecidableEq, Repr

/-- The poll loop of `#checkQueryExecutionState`, driven by a finite script
of service responses: fetch a status (consuming one response), classify it,
and on QUEUED/RUNNING wait 1000 ms and recurse. Returns the outcome
together with the ordered trace of events. An exhausted script models the
underlying transport failing. -/
def checkQueryExecutionState (queryExecutionId : String) :
    List PollResp → Except QueryFailure String × List Event
  | [] => (.error .transport, [.fetchStatus])
  | resp :: rest =>
    match classifyState resp with
    | .resolve => (.ok queryExecutionId, [.fetchStatus])
    | .fail f => (.error f, [.fetchStatus])
    | .continue_ =>
      let tail := checkQueryExecutionState queryExecutionId rest
      (tail.1, .fetchStatus :: .wait 1000 :: tail.2)

/-- Response of `StartQueryExecutionCommand`: the optional execution id. -/
structure SubmitResp where
  queryExecutionId : Option String
  deriving DecidableEq, Repr

/-- `AthenaQueryClient.query`: submit, reject if no execution id came back,
otherwise run the poll loop; a poll failure is wrapped
(`Query execution failed: ...`). Returns the outcome and the poll trace. -/
def query (submit : SubmitResp) (script : List PollResp) :
    Except QueryFailure String × List Event :=
  match submit.queryExecutionId with
  | none => (.error .noExecutionId, [])
  | some id =>
    match checkQueryExecutionState id script with
    | (.ok v, evs) => (.ok v, evs)
    | (.error f, evs) => (.error (.wrapped f), evs)

/-- Abbreviation for a QUEUED response with no reason. -/
def queuedResp : PollResp := ⟨some .queued, none⟩

/-- Abbreviation for a RUNNING response with no reason. -/
def runningResp : PollResp := ⟨some .running, none⟩

/-- Abbreviation for a SUCCEEDED response with no reason. -/
def succeededResp : PollResp := ⟨some .succeeded, none⟩

/-- Number of status fetches in a trace. -/
def fetchCount (evs : List Event) : Nat :=
  (evs.filter (· = .fetchStatus)).length

/-- Whether a state value is a terminal failure (FAILED, CANCELLED, or
unrecognized — including an absent state), per the spec's taxonomy. -/
def terminalFailureState (st : Option QState) : Prop :=
  match st with
  | some .succeeded => False
  | some .queued => False
  | some .running => False
  | _ => True

instance (st : Option QState) : Decidable (terminalFailureState st) := by
  unfold terminalFailureState
  match st with
  | some .succeeded => exact inferInstanceAs (Decidable False)
  | some .queued => exact inferInstanceAs (Decidable False)
  | some .running => exact inferInstanceAs (Decidable False)
  | some .failed => exact inferInstanceAs (Decidable True)
  | some .cancelled => exact inferInstanceAs (Decidable True)
  | some (.other _) => exact inferInstanceAs (Decidable True)
  | none => exact inferInstanceAs (Decidable True)

/-- The failure the claim's taxonomy assigns to a terminal-failure response
(amended to the code's empty-reason fallback). -/
def expectedFailure (resp : PollResp) : QueryFailure :=
  match resp.state with
  | some .failed => .queryFailed (resolveReason resp.stateChangeReason)
  | some .cancelled => .cancelled
  | some (.other s) => .unknownState (some (.other s))
  | _ => .unknownState resp.state

end AthenaClient

namespace MappedProcessor

/-- One Athena datum cell: `{ VarCharValue?: string }`. -/
structure Cell where
  varCharValue : Option String
  deriving DecidableEq, Repr

/-- One Athena row: `{ Data?: Cell[] }`. -/
structure RowT where
  data : Option (List Cell)
  deriving DecidableEq, Repr

/-- An Athena result set: `{ Rows?: Row[] }`. -/
structure ResultSetT where
  rows : Option (List RowT)
  deriving DecidableEq, Repr

/-- A `GetQueryResultsCommand` response: `{ ResultSet?: ..., NextToken?: ... }`. -/
structure ResultsResp where
  resultSet : Option ResultSetT
  nextToken : Option String
  deriving DecidableEq, Repr

/-- A `GetQueryResultsCommand` request as the code builds it. The code of
`#fetchQueryResults` passes only `QueryExecutionId`, so `nextToken` and
`maxResults` are always `none` there. -/
structure ResultsReq where
  queryExecutionId : String
  nextToken : Option String
  maxResults : Option Nat
  deriving DecidableEq, Repr

/-- Configuration `MappedQueryResultProcessorParams`: the service handle is
passed separately as a script, so only the two options remain. -/
structure Config where
  maxResults : Option Nat
  paginateResults : Option Bool
  deriving DecidableEq, Repr

/-- The query service for this processor: answers each request from a
token-indexed page table (`none` keys the first page). -/
structure Service where
  pageFor : Option String → ResultsResp

/-- `#fetchQueryResults`: a single `send(new GetQueryResultsCommand({
QueryExecutionId }))`; fails when the response has no result set. Also
returns the list of requests issued, to make the call pattern observable. -/
def fetchQueryResults (svc : Service) (queryExecutionId : String) :
    Except String ResultSetT × List ResultsReq :=
  let req : ResultsReq := ⟨queryExecutionId, none, none⟩
  let response := svc.pageFor none
  match response.resultSet with
  | none => (.error "Query results are empty or undefined", [req])
  | some rs => (.ok rs, [req])

/-- `#extractHeaders`: `rows[0]?.Data?.map(c => c.VarCharValue || '')`,
failing when that yields nothing or an empty list. -/
def extractHeaders (rows : List RowT) : Except String (List String) :=
  let headers? := (rows.head?.bind (·.data)).map
    (List.map (fun c => c.varCharValue.getD ""))
  match headers? with
  | none => .error "No headers found in the result set"
  | some [] => .error "No headers found in the result set"
  | some hs => .ok hs

/-- JS object property assignment `m[k] = v`: update in place when the key
exists, otherwise append (insertion order preserved). -/
def objInsert (m : List (String × String)) (k v : String) :
    List (String × String) :=
  if m.any (fun p => p.1 = k) then
    m.map (fun p => if p.1 = k then (k, v) else p)
  else
    m ++ [(k, v)]

/-- `#mapRowToObject`: for each cell at index `i`, look up `headers[i]`;
the guard `if (header)` keeps the cell only when that lookup yields a
truthy (present and non-empty) string. -/
def mapRowToObject (row : RowT) (headers : List String) :
    List (String × String) :=
  (row.data.getD []).enum.foldl
    (fun m iv =>
      let header := headers.getD iv.1 ""
      if header ≠ "" then objInsert m header (iv.2.varCharValue.getD "")
      else m)
    []

/-- `#extractRows`: empty or absent `Rows` short-circuits to `[]`; otherwise
headers are extracted from the first row and the remaining rows mapped. -/
def extractRows (resultSet : ResultSetT) :
    Except String (List (List (String × String))) :=
  match resultSet.rows with
  | none => .ok []
  | some [] => .ok []
  | some rows =>
    match extractHeaders rows with
    | .error e => .error e
    | .ok headers => .ok ((rows.drop 1).map (fun r => mapRowToObject r headers))

/-- `MappedQueryResultProcessor.processResults`: fetch, extract, and wrap
any failure as `Error processing results: <message>`. The configuration is
taken but — like in the source — never consulted. Also returns the list of
service requests issued. -/
def processResults (_config : Config) (svc : Service)
    (queryExecutionId : String) :
    Except String (List (List (String × String))) × List ResultsReq :=
  match fetchQueryResults svc queryExecutionId with
  | (.error e, reqs) => (.error ("Error processing results: " ++ e), reqs)
  | (.ok rs, reqs) =>
    match extractRows rs with
    | .error e => (.error ("Error processing results: " ++ e), reqs)
    | .ok records => (.ok records, reqs)

/-- Modelled from the claim's words (C7, as stated): map a row by
associating the header name at each positional index with that cell's value
(empty string when absent), dropping cells only at positions without a
corresponding header (beyond the header list). -/
def mapRowClaimed (row : RowT) (headers : List String) :
    List (String × String) :=
  (row.data.getD []).enum.foldl
    (fun m iv =>
      match headers.get? iv.1 with
      | some header => objInsert m header (iv.2.varCharValue.getD "")
      | none => m)
    []

/-- Modelled from the amended claim (C7): as `mapRowClaimed`, but cells at
positions whose header is the empty string are also dropped. -/
def mapRowAmended (row : RowT) (headers : List String) :
    List (String × String) :=
  (row.data.getD []).enum.foldl
    (fun m iv =>
      match headers.get? iv.1 with
      | some header =>
        if header = "" then m else objInsert m header (iv.2.varCharValue.getD "")
      | none => m)
    []

/-- The header list the claim prescribes: each first-row cell's value,
empty string when absent. -/
def claimedHeaders (firstRow : RowT) : List String :=
  (firstRow.data.getD []).map (fun c => c.varCharValue.getD "")

end MappedProcessor

namespace S3Processor

/-- `MAX_BATCH_SIZE` from `types.ts`. -/
def MAX_BATCH_SIZE : Nat := 999

/-- `#validateBatchSize`: `if (!batchSize) return MAX_BATCH_SIZE` — both an
absent and a zero batch size are falsy and give the default; a value above
the ceiling throws; anything else is returned unchanged. -/
def validateBatchSize (batchSize : Option Nat) : Except String Nat :=
  match batchSize with
  | none => .ok MAX_BATCH_SIZE
  | some b =>
    if b = 0 then .ok MAX_BATCH_SIZE
    else if b > MAX_BATCH_SIZE then
      .error ("Batch size cannot be greater than " ++ toString MAX_BATCH_SIZE)
    else .ok b

/-- `S3QueryResultProcessorParams` (service handles are passed separately).
The record type `R` stands for one decoded CSV record. -/
structure Params where
  batchSize : Option Nat
  s3OutputLocation : String
  deriving DecidableEq, Repr

/-- The private fields an `S3QueryResultProcessor` instance holds after
construction. -/
structure ProcState where
  batchSize : Nat
  s3OutputLocation : String
  deriving DecidableEq, Repr

/-- The constructor: validate the batch size (synchronously, before any
network call — the construction is a pure function of the parameters) and
store the configuration. -/
def mkProcessor (params : Params) : Except String ProcState :=
  match validateBatchSize params.batchSize with
  | .error e => .error e
  | .ok b => .ok ⟨b, params.s3OutputLocation⟩

/-- Split the characters of a URL at the first scheme separator `://`,
returning the scheme part and everything after; `none` when the separator
does not occur (the URL constructor would throw). -/
def splitScheme : List Char → Option (List Char × List Char)
  | [] => none
  | ':' :: '/' :: '/' :: rest => some ([], rest)
  | c :: rest => (splitScheme rest).map (fun p => (c :: p.1, p.2))

/-- `#parseS3Url`, modelling `new URL(url)`: the text between `://` and the
first `/` is the authority, the bucket is its first dot-segment
(`hostname.split('.')[0]`), the key is the path without its leading slash
(`pathname.slice(1)`). A URL without a scheme separator or without a
bucket is invalid. -/
def parseS3Url (url : String) : Except String (String × String) :=
  match splitScheme url.data with
  | none => .error "Invalid S3 URL: invalid URL"
  | some (_, rest) =>
    let host := rest.takeWhile (fun c => c ≠ '/')
    let path := rest.dropWhile (fun c => c ≠ '/')
    let bucket := host.takeWhile (fun c => c ≠ '.')
    if bucket.isEmpty then .error "Invalid S3 URL: missing bucket name"
    else .ok (String.mk bucket, String.mk (path.drop 1))

/-- The object-storage service: for a bucket and key, `send` either throws
(`.error`), returns a response without a body (`.ok none`), or returns the
stream of records the CSV layer will decode (`.ok (some records)`). -/
structure Storage (R : Type) where
  getObject : String → String → Except String (Option (List R))

/-- `#fetchS3Object`: send `GetObjectCommand`; a response without a `Body`
is rejected with `Failed to fetch file: <bucket>/<key>`. -/
def fetchS3Object {R : Type} (storage : Storage R) (bucket key : String) :
    Except String (List R) :=
  match storage.getObject bucket key with
  | .error e => .error e
  | .ok none => .error ("Failed to fetch file: " ++ bucket ++ "/" ++ key)
  | .ok (some records) => .ok records

/-- State of the `while (record !== null)` loop inside the `readable`
handler of `#processStreamingResults`: the accumulation buffer and the
batches handed to the sink so far. -/
structure LoopSt (R : Type) where
  batch : List R
  emitted : List (List R)
  deriving DecidableEq, Repr

/-- One iteration of the loop body: push the (fixed!) record read before
the loop, and flush the buffer to the sink once it reaches the batch size.
The loop variable `record` is `const` and never reassigned, so every
iteration pushes the same first record. -/
def handlerStep {R : Type} (record : R) (batchSize : Nat) (s : LoopSt R) :
    LoopSt R :=
  let batch := s.batch ++ [record]
  if batchSize ≤ batch.length then ⟨[], s.emitted ++ [batch]⟩
  else ⟨batch, s.emitted⟩

/-- `n` iterations of the loop body. -/
def handlerIter {R : Type} (record : R) (batchSize : Nat) :
    Nat → LoopSt R → LoopSt R
  | 0, s => s
  | n + 1, s => handlerIter record batchSize n (handlerStep record batchSize s)

/-- The loop guard `record !== null`, evaluated on the record read once
before the loop; it does not depend on the loop state. -/
def handlerGuard {R : Type} (record : Option R) : Bool :=
  record.isSome

/-- Run the `readable`-handler loop with fuel: `record` is the single
`parser.read()` result taken before the loop. The loop exits only when the
guard is false; `none` means the fuel was exhausted with the guard still
true (the loop has not terminated). -/
def handlerRun {R : Type} (record : Option R) (batchSize : Nat) :
    Nat → LoopSt R → Option (LoopSt R)
  | 0, s => if handlerGuard record then none else some s
  | n + 1, s =>
    if handlerGuard record then
      match record with
      | some r => handlerRun record batchSize n (handlerStep r batchSize s)
      | none => some s
    else some s

/-- Outcome of `processResults`: the result, the batches handed to
`onData` in order, and whether `onComplete` was invoked. -/
structure Outcome (R : Type) where
  result : Except String Unit
  sinkBatches : List (List R)
  completed : Bool
  deriving Repr

/-- `#processStreamingResults` on the decoded record stream: the `readable`
handler reads one record and loops on it; when the stream is empty the
handler does nothing, `finished` resolves with an empty buffer (no final
flush of an empty batch) and `onComplete` runs. `none` models divergence:
with a non-empty stream the handler loop never terminates, so completion
is never reached within any fuel. -/
def processStreamingResults {R : Type} (batchSize : Nat) (records : List R)
    (fuel : Nat) : Option (Outcome R) :=
  let record := records.head?
  match handlerRun record batchSize fuel ⟨[], []⟩ with
  | none => none
  | some s =>
    let final := if s.batch.length > 0 then s.emitted ++ [s.batch] else s.emitted
    some ⟨.ok (), final, true⟩

/-- `S3QueryResultProcessor.processResults`: build the object location
`<s3OutputLocation>/<queryExecutionId>.csv`, parse it, fetch the object and
stream-process it. A failure before streaming yields an errored outcome
with no sink batch and no completion callback. -/
def processResults {R : Type} (st : ProcState) (storage : Storage R)
    (queryExecutionId : String) (fuel : Nat) : Option (Outcome R) :=
  let s3Location := st.s3OutputLocation ++ "/" ++ queryExecutionId ++ ".csv"
  match parseS3Url s3Location with
  | .error e => some ⟨.error e, [], false⟩
  | .ok (bucket, key) =>
    match fetchS3Object storage bucket key with
    | .error e => some ⟨.error e, [], false⟩
    | .ok records => processStreamingResults st.batchSize records fuel

end S3Processor

/-! ## JSON values and `JSON.stringify`

The items handed to `JsonFileAppender.flush` are modelled as JSON values
(the proviso "each item serializes to valid JSON" of the spec is thereby
built in). `stringify` mirrors `JSON.stringify(item, null)`: compact
output, standard string escaping, keys in insertion order. -/

mutual
/-- A JSON value. -/
inductive Json where
  | null
  | bool (b : Bool)
  | num (n : Int)
  | str (s : String)
  | arr (elems : JsonList)
  | obj (entries : JsonObj)

/-- A list of JSON values (array elements). -/
inductive JsonList where
  | nil
  | cons (hd : Json) (tl : JsonList)

/-- An ordered list of key/value members of a JSON object. -/
inductive JsonObj where
  | nil
  | cons (key : String) (val : Json) (tl : JsonObj)
end

namespace JsonModel

/-- Decimal digit to character. -/
def digitChar (d : Nat) : Char :=
  match d with
  | 0 => '0' | 1 => '1' | 2 => '2' | 3 => '3' | 4 => '4'
  | 5 => '5' | 6 => '6' | 7 => '7' | 8 => '8' | _ => '9'

/-- Lowercase hexadecimal digit to character (as `JSON.stringify` emits). -/
def hexChar (d : Nat) : Char :=
  match d with
  | 0 => '0' | 1 => '1' | 2 => '2' | 3 => '3' | 4 => '4'
  | 5 => '5' | 6 => '6' | 7 => '7' | 8 => '8' | 9 => '9'
  | 10 => 'a' | 11 => 'b' | 12 => 'c' | 13 => 'd' | 14 => 'e' | _ => 'f'

/-- Decimal digits of a natural number, most significant first; the fuel is
only a termination device (any fuel above the input suffices). -/
def natDigitsF : Nat → Nat → List Char → List Char
  | 0, _, acc => acc
  | fuel + 1, n, acc =>
    if n < 10 then digitChar n :: acc
    else natDigitsF fuel (n / 10) (digitChar (n % 10) :: acc)

/-- Decimal digits of a natural number, most significant first. -/
def digitsOf (n : Nat) : List Char := natDigitsF (n + 1) n []

/-- Characters of the decimal rendering of an integer. -/
def intChars (n : Int) : List Char :=
  if n < 0 then '-' :: digitsOf n.natAbs else digitsOf n.toNat

/-- `JSON.stringify` escaping of one string character. -/
def escapeChar (c : Char) : List Char :=
  if c = '"' then ['\\', '"']
  else if c = '\\' then ['\\', '\\']
  else if c = '\x08' then ['\\', 'b']
  else if c = '\x0c' then ['\\', 'f']
  else if c = '\n' then ['\\', 'n']
  else if c = '\r' then ['\\', 'r']
  else if c = '\t' then ['\\', 't']
  else if c.toNat < 32 then
    ['\\', 'u', '0', '0', hexChar (c.toNat / 16), hexChar (c.toNat % 16)]
  else [c]

/-- Characters of the escaped body of a string (without the quotes). -/
def escapeChars : List Char → List Char
  | [] => []
  | c :: cs => escapeChar c ++ escapeChars cs

/-- A double-quoted JSON string literal. -/
def quoteChars (s : String) : List Char :=
  '"' :: escapeChars s.data ++ ['"']

mutual
/-- Characters of `JSON.stringify(v, null)`. -/
def renderChars : Json → List Char
  | .null => "null".data
  | .bool true => "true".data
  | .bool false => "false".data
  | .num n => intChars n
  | .str s => quoteChars s
  | .arr elems => '[' :: renderElems elems ++ [']']
  | .obj entries => '\x7b' :: renderMembers entries ++ ['\x7d']

/-- Comma-separated renderings of array elements. -/
def renderElems : JsonList → List Char
  | .nil => []
  | .cons v tl => renderChars v ++ renderElemsTail tl

/-- Renderings of the array elements after the first, each preceded by a
comma. -/
def renderElemsTail : JsonList → List Char
  | .nil => []
  | .cons v tl => ',' :: renderChars v ++ renderElemsTail tl

/-- Comma-separated renderings of object members. -/
def renderMembers : JsonObj → List Char
  | .nil => []
  | .cons k v tl => quoteChars k ++ ':' :: renderChars v ++ renderMembersTail tl

/-- Renderings of the object members after the first, each preceded by a
comma. -/
def renderMembersTail : JsonObj → List Char
  | .nil => []
  | .cons k v tl => ',' :: quoteChars k ++ ':' :: renderChars v ++ renderMembersTail tl
end

/-- `JSON.stringify(item, null)` as a string. -/
def stringify (v : Json) : String := String.mk (renderChars v)

/-! ### A JSON parser (`JSON.parse`)

The environment's `JSON.parse`, needed to state that file contents parse
as a JSON array. Fuel bounds only the value-nesting recursion; every other
recursion is structural on the input characters. -/

/-- JSON insignificant whitespace. -/
def isWs (c : Char) : Bool :=
  c = ' ' || c = '\n' || c = '\r' || c = '\t'

/-- Drop leading JSON whitespace. -/
def skipWs (cs : List Char) : List Char := cs.dropWhile isWs

/-- Decimal digit value of a character. -/
def digit? (c : Char) : Option Nat :=
  if 48 ≤ c.toNat ∧ c.toNat ≤ 57 then some (c.toNat - 48) else none

/-- Hexadecimal digit value of a character. -/
def hexVal? (c : Char) : Option Nat :=
  if 48 ≤ c.toNat ∧ c.toNat ≤ 57 then some (c.toNat - 48)
  else if 97 ≤ c.toNat ∧ c.toNat ≤ 102 then some (c.toNat - 87)
  else if 65 ≤ c.toNat ∧ c.toNat ≤ 70 then some (c.toNat - 55)
  else none

/-- Consume a maximal run of decimal digits, accumulating their value. -/
def parseNatLoop (acc : Nat) : List Char → Nat × List Char
  | [] => (acc, [])
  | c :: cs =>
    match digit? c with
    | some d => parseNatLoop (acc * 10 + d) cs
    | none => (acc, c :: cs)

/-- Decode a single-character escape (`\"`, `\\`, `\/`, `\b`, `\f`, `\n`,
`\r`, `\t`). -/
def escDecode (e : Char) : Option Char :=
  if e = '"' then some '"'
  else if e = '\\' then some '\\'
  else if e = '/' then some '/'
  else if e = 'b' then some '\x08'
  else if e = 'f' then some '\x0c'
  else if e = 'n' then some '\n'
  else if e = 'r' then some '\r'
  else if e = 't' then some '\t'
  else none

/-- Parse the body of a string literal after the opening quote, returning
the decoded characters and the input after the closing quote. -/
def parseStrChars : List Char → Option (List Char × List Char)
  | [] => none
  | '"' :: cs => some ([], cs)
  | '\\' :: 'u' :: h1 :: h2 :: h3 :: h4 :: cs2 =>
    match hexVal? h1, hexVal? h2, hexVal? h3, hexVal? h4 with
    | some a, some b, some c2, some d =>
      (parseStrChars cs2).map
        (fun p => (Char.ofNat (((a * 16 + b) * 16 + c2) * 16 + d) :: p.1, p.2))
    | _, _, _, _ => none
  | '\\' :: e :: cs1 =>
    match escDecode e with
    | some ec => (parseStrChars cs1).map (fun p => (ec :: p.1, p.2))
    | none => none
  | c :: cs =>
    if c.toNat < 32 then none
    else (parseStrChars cs).map (fun p => (c :: p.1, p.2))

/-- After the opening bracket: the empty array or the first element;
`pv` and `par` are the value and array-tail parsers at the next fuel. -/
def parseArrayFirst (pv : List Char → Option (Json × List Char))
    (par : List Char → Option (JsonList × List Char))
    (c2 : Char) (cs2 : List Char) : Option (Json × List Char) :=
  if c2 = ']' then some (.arr .nil, cs2)
  else
    match pv (c2 :: cs2) with
    | some (v, r1) =>
      match par r1 with
      | some (tl, r2) => some (.arr (.cons v tl), r2)
      | none => none
    | none => none

/-- After the opening brace: the empty object or the first member;
`pm` and `por` are the member and object-tail parsers at the next fuel. -/
def parseObjFirst (pm : List Char → Option (String × Json × List Char))
    (por : List Char → Option (JsonObj × List Char))
    (c2 : Char) (cs2 : List Char) : Option (Json × List Char) :=
  if c2 = '\x7d' then some (.obj .nil, cs2)
  else
    match pm (c2 :: cs2) with
    | some (k, v, r1) =>
      match por r1 with
      | some (tl, r2) => some (.obj (.cons k v tl), r2)
      | none => none
    | none => none

/-- Dispatch on the first significant character of a value. -/
def parseValueBody (pv : List Char → Option (Json × List Char))
    (par : List Char → Option (JsonList × List Char))
    (pm : List Char → Option (String × Json × List Char))
    (por : List Char → Option (JsonObj × List Char))
    (c : Char) (cs1 : List Char) : Option (Json × List Char) :=
  if c = 'n' then
    match cs1 with
    | 'u' :: 'l' :: 'l' :: rest => some (.null, rest)
    | _ => none
  else if c = 't' then
    match cs1 with
    | 'r' :: 'u' :: 'e' :: rest => some (.bool true, rest)
    | _ => none
  else if c = 'f' then
    match cs1 with
    | 'a' :: 'l' :: 's' :: 'e' :: rest => some (.bool false, rest)
    | _ => none
  else if c = '"' then
    (parseStrChars cs1).map (fun p => (.str (String.mk p.1), p.2))
  else if c = '-' then
    match cs1 with
    | [] => none
    | d :: _ =>
      match digit? d with
      | some _ =>
        let p := parseNatLoop 0 cs1
        some (.num (-(p.1 : Int)), p.2)
      | none => none
  else
    match digit? c with
    | some _ =>
      let p := parseNatLoop 0 (c :: cs1)
      some (.num (p.1 : Int), p.2)
    | none =>
      if c = '[' then
        match skipWs cs1 with
        | [] => none
        | c2 :: cs2 => parseArrayFirst pv par c2 cs2
      else if c = '\x7b' then
        match skipWs cs1 with
        | [] => none
        | c2 :: cs2 => parseObjFirst pm por c2 cs2
      else none

/-- Dispatch on the first significant character after an array element. -/
def parseArrayRestBody (pv : List Char → Option (Json × List Char))
    (par : List Char → Option (JsonList × List Char))
    (c : Char) (r : List Char) : Option (JsonList × List Char) :=
  if c = ']' then some (.nil, r)
  else if c = ',' then
    match pv r with
    | some (v, r1) =>
      match par r1 with
      | some (tl, r2) => some (.cons v tl, r2)
      | none => none
    | none => none
  else none

/-- After the key of a member: the colon and the value. -/
def parseMemberColon (pv : List Char → Option (Json × List Char))
    (k : List Char) (r1 : List Char) : Option (String × Json × List Char) :=
  match skipWs r1 with
  | [] => none
  | c2 :: r2 =>
    if c2 = ':' then
      match pv r2 with
      | some (v, r3) => some (String.mk k, v, r3)
      | none => none
    else none

/-- Dispatch on the first significant character of a member: its key must
be a string literal. -/
def parseMemberBody (pv : List Char → Option (Json × List Char))
    (c : Char) (cs1 : List Char) : Option (String × Json × List Char) :=
  if c = '"' then
    match parseStrChars cs1 with
    | some (k, r1) => parseMemberColon pv k r1
    | none => none
  else none

/-- Dispatch on the first significant character after an object member. -/
def parseObjRestBody (pm : List Char → Option (String × Json × List Char))
    (por : List Char → Option (JsonObj × List Char))
    (c : Char) (r : List Char) : Option (JsonObj × List Char) :=
  if c = '\x7d' then some (.nil, r)
  else if c = ',' then
    match pm r with
    | some (k, v, r1) =>
      match por r1 with
      | some (tl, r2) => some (.cons k v tl, r2)
      | none => none
    | none => none
  else none

mutual
/-- Parse one JSON value (after skipping leading whitespace); the fuel
bounds the nesting of the value grammar. -/
def parseValue : Nat → List Char → Option (Json × List Char)
  | 0, _ => none
  | fuel + 1, cs =>
    match skipWs cs with
    | [] => none
    | c :: cs1 =>
      parseValueBody (fun x => parseValue fuel x) (fun x => parseArrayRest fuel x)
        (fun x => parseMember fuel x) (fun x => parseObjRest fuel x) c cs1

/-- Parse the continuation of an array after one element: either the
closing bracket or a comma followed by an element and the rest. -/
def parseArrayRest : Nat → List Char → Option (JsonList × List Char)
  | 0, _ => none
  | fuel + 1, cs =>
    match skipWs cs with
    | [] => none
    | c :: r =>
      parseArrayRestBody (fun x => parseValue fuel x)
        (fun x => parseArrayRest fuel x) c r

/-- Parse one object member: a string key, a colon, and a value. -/
def parseMember : Nat → List Char → Option (String × Json × List Char)
  | 0, _ => none
  | fuel + 1, cs =>
    match skipWs cs with
    | [] => none
    | c :: cs1 => parseMemberBody (fun x => parseValue fuel x) c cs1

/-- Parse the continuation of an object after one member. -/
def parseObjRest : Nat → List Char → Option (JsonObj × List Char)
  | 0, _ => none
  | fuel + 1, cs =>
    match skipWs cs with
    | [] => none
    | c :: r =>
      parseObjRestBody (fun x => parseMember fuel x)
        (fun x => parseObjRest fuel x) c r
end

mutual
/-- Fuel sufficient to parse the rendering of a value. -/
def pfuel : Json → Nat
  | .null => 1
  | .bool _ => 1
  | .num _ => 1
  | .str _ => 1
  | .arr l => 1 + pfuelList l
  | .obj l => 1 + pfuelObj l

/-- Fuel sufficient to parse the rendered tail of an array. -/
def pfuelList : JsonList → Nat
  | .nil => 1
  | .cons v tl => 1 + pfuel v + pfuelList tl

/-- Fuel sufficient to parse the rendered tail of an object. -/
def pfuelObj : JsonObj → Nat
  | .nil => 1
  | .cons _ v tl => 2 + pfuel v + pfuelObj tl
end

/-- `JSON.parse` on a character list: one value, with only whitespace
allowed after it. The fuel is generous for any input that parses at all. -/
def parseJsonChars (cs : List Char) : Option Json :=
  match parseValue (2 * cs.length + 8) cs with
  | some (v, rest) =>
    match skipWs rest with
    | [] => some v
    | _ :: _ => none
  | none => none

/-- `JSON.parse` on a string. -/
def parseJson (s : String) : Option Json := parseJsonChars s.data

/-- Whether the input does not begin with a decimal digit (the condition
under which a number rendering followed by this input parses back
unchanged). -/
def noDigitHead : List Char → Bool
  | [] => true
  | c :: _ => (digit? c).isNone

/-- Conversion from ordinary lists of values. -/
def toJsonList : List Json → JsonList
  | [] => .nil
  | v :: tl => .cons v (toJsonList tl)

end JsonModel

deriving instance DecidableEq for Json

namespace JsonFileAppender

open JsonModel

/-- The state a `JsonFileAppender` instance interacts with: the content of
the single target file (`none` when the file does not exist) and the
private `#isFirstWrite` flag (initialized `true`). -/
structure AppSt where
  fs : Option String
  isFirstWrite : Bool

/-- A fresh appender pointed at an absent target file. -/
def freshAppender : AppSt := ⟨none, true⟩

/-- `#initializeFile`: when the file exists, `#isFirstWrite` becomes
whether its size is zero; when absent, it is created holding the opening
bracket plus newline and `#isFirstWrite` becomes true. -/
def initFile (st : AppSt) : AppSt :=
  match st.fs with
  | some content => ⟨some content, content.length = 0⟩
  | none => ⟨some "[\n", true⟩

/-- The text appended by the item loop of `flush`: a comma-newline
separator precedes every item except the very first one written while
`#isFirstWrite` is still set (`if (!this.#isFirstWrite || i > 0)`). -/
def writeItems (isFirstWrite : Bool) : List Json → String
  | [] => ""
  | item :: rest =>
    (if isFirstWrite then "" else ",\n") ++ stringify item ++ writeItems false rest

/-- `flush(currentBatch)`: ensure the directory (a no-op in this model),
initialize the file, append the items, and unconditionally clear
`#isFirstWrite` after the loop. -/
def flush (st : AppSt) (currentBatch : List Json) : AppSt :=
  let st1 := initFile st
  ⟨some ((st1.fs.getD "") ++ writeItems st1.isFirstWrite currentBatch), false⟩

/-- `closeFileWithBracket`: append a newline and the closing bracket in
append mode (creating the file when absent), touching no flag. -/
def closeFileWithBracket (fs : Option String) : Option String :=
  some ((fs.getD "") ++ "\n]")

/-- A sequence of `flush` calls. -/
def runFlushes (st : AppSt) : List (List Json) → AppSt
  | [] => st
  | b :: bs => runFlushes (flush st b) bs

/-- The file contents after flushing the given batches on a fresh appender
whose target file is initially absent, then closing. -/
def fileAfter (batches : List (List Json)) : String :=
  (closeFileWithBracket (runFlushes freshAppender batches).fs).getD ""

/-- The characters the item loop appends for the items after the first
ever written: each preceded by the comma-newline separator. -/
def fileElemsTail : List Json → List Char
  | [] => []
  | v :: tl => ',' :: '\n' :: renderChars v ++ fileElemsTail tl

/-- The characters holding the given items inside the file: the first item
bare, each later one preceded by the comma-newline separator. -/
def fileElems : List Json → List Char
  | [] => []
  | v :: tl => renderChars v ++ fileElemsTail tl

/-- The proviso the counterexample to C5 forces: either some batch before
the first non-empty one is empty (bad), or not. Good sequences are those
whose first batch is non-empty, and the all-empty sequences. -/
def goodBatches (batches : List (List Json)) : Prop :=
  (batches.headD []) ≠ [] ∨ batches.flatten = []

instance (batches : List (List Json)) : Decidable (goodBatches batches) := by
  unfold goodBatches
  exact inferInstance

end JsonFileAppender

/-! ## Theorems -/

/-- Skipping a continue-classified prefix of the poll script does not
change the outcome, and contributes one fetch and one wait per response. -/
theorem checkState_append_continue (id : String) (pre script : List AthenaClient.PollResp)
    (h : ∀ r ∈ pre, AthenaClient.classifyState r = .continue_) :
    (AthenaClient.checkQueryExecutionState id (pre ++ script)).1 =
      (AthenaClient.checkQueryExecutionState id script).1 := by
  induction pre with
  | nil => rfl
  | cons r pre ih =>
    have hr : AthenaClient.classifyState r = .continue_ := h r (by simp)
    have hrest : ∀ x ∈ pre, AthenaClient.classifyState x = .continue_ :=
      fun x hx => h x (by simp [hx])
    simp [AthenaClient.checkQueryExecutionState, hr, ih hrest]

/-- A terminal-failure response is classified as the corresponding typed
failure. -/
theorem classifyState_terminal (resp : AthenaClient.PollResp)
    (h : AthenaClient.terminalFailureState resp.state) :
    AthenaClient.classifyState resp = .fail (AthenaClient.expectedFailure resp) := by
  obtain ⟨st, reason⟩ := resp
  match st with
  | some .succeeded => exact absurd h (by simp [AthenaClient.terminalFailureState])
  | some .queued => exact absurd h (by simp [AthenaClient.terminalFailureState])
  | some .running => exact absurd h (by simp [AthenaClient.terminalFailureState])
  | some .failed => rfl
  | some .cancelled => rfl
  | some (.other s) => rfl
  | none => rfl

/-- Counting fetches in a trace beginning with a fetch and a wait. -/
theorem fetchCount_cons_fetch_wait (ms : Nat) (evs : List AthenaClient.Event) :
    AthenaClient.fetchCount (.fetchStatus :: .wait ms :: evs) =
      AthenaClient.fetchCount evs + 1 := by
  simp [AthenaClient.fetchCount, List.filter]

/-- A replicate-QUEUED script followed by SUCCEEDED resolves and costs one
fetch per response. -/
theorem checkState_replicate_queued (id : String) (n : Nat) :
    (AthenaClient.checkQueryExecutionState id
        (List.replicate n AthenaClient.queuedResp ++ [AthenaClient.succeededResp])).1 =
      .ok id ∧
    AthenaClient.fetchCount
        (AthenaClient.checkQueryExecutionState id
          (List.replicate n AthenaClient.queuedResp ++ [AthenaClient.succeededResp])).2 =
      n + 1 := by
  induction n with
  | zero =>
    constructor
    · rfl
    · rfl
  | succ m ih =>
    rw [List.replicate_succ, List.cons_append]
    have hq : AthenaClient.classifyState AthenaClient.queuedResp = .continue_ := rfl
    constructor
    · simpa [AthenaClient.checkQueryExecutionState, hq] using ih.1
    · simp only [AthenaClient.checkQueryExecutionState, hq]
      rw [fetchCount_cons_fetch_wait]
      omega

/-- Claim C3: after a successful submission, for the status-poll response
sequence QUEUED, QUEUED, RUNNING, SUCCEEDED, `query` resolves with the
execution identifier returned by the submission; the status fetch is issued
exactly 4 times — one immediately, and one more after each fixed 1000 ms
wait that follows a QUEUED or RUNNING response (the trace alternates fetch,
wait 1000, ..., fetch); and no maximum attempt count bounds the loop: for
every `n`, a script of `n` QUEUED responses followed by SUCCEEDED still
resolves, with `n + 1` status fetches. -/
theorem c3_poll_sequence (id : String) :
    AthenaClient.query ⟨some id⟩
        [AthenaClient.queuedResp, AthenaClient.queuedResp,
         AthenaClient.runningResp, AthenaClient.succeededResp] =
      (.ok id,
        [.fetchStatus, .wait 1000, .fetchStatus, .wait 1000,
         .fetchStatus, .wait 1000, .fetchStatus]) ∧
    AthenaClient.fetchCount
        (AthenaClient.query ⟨some id⟩
          [AthenaClient.queuedResp, AthenaClient.queuedResp,
           AthenaClient.runningResp, AthenaClient.succeededResp]).2 = 4 ∧
    ∀ n : Nat,
      (AthenaClient.query ⟨some id⟩
          (List.replicate n AthenaClient.queuedResp ++ [AthenaClient.succeededResp])).1 =
        .ok id := by
  refine ⟨rfl, rfl, fun n => ?_⟩
  have h := checkState_replicate_queued id n
  simp only [AthenaClient.query]
  obtain ⟨hres, -⟩ := h
  obtain ⟨r, evs⟩ :
      ∃ p, AthenaClient.checkQueryExecutionState id
        (List.replicate n AthenaClient.queuedResp ++ [AthenaClient.succeededResp]) = p :=
    ⟨_, rfl⟩
  rw [evs] at hres ⊢
  obtain ⟨res, tr⟩ := r
  simp at hres
  subst hres
  rfl

/-- Claim C4 (amended): whenever the poll loop meets a response carrying a
terminal failure state — after any prefix of QUEUED/RUNNING responses —
`query` rejects (never resolves with the identifier) with the typed failure
prescribed by the state: the service-provided reason for FAILED (falling
back to "Unknown reason" when the service supplies none or an empty
string), the cancelled failure for CANCELLED, and the unknown-state failure
carrying the value for anything unrecognized, wrapped by `query`. -/
theorem c4_terminal_failure_rejects (id : String)
    (pre : List AthenaClient.PollResp) (resp : AthenaClient.PollResp)
    (rest : List AthenaClient.PollResp)
    (hpre : ∀ r ∈ pre, AthenaClient.classifyState r = .continue_)
    (hterm : AthenaClient.terminalFailureState resp.state) :
    (AthenaClient.query ⟨some id⟩ (pre ++ resp :: rest)).1 =
      .error (.wrapped (AthenaClient.expectedFailure resp)) := by
  have hskip := checkState_append_continue id pre (resp :: rest) hpre
  have hhead :
      (AthenaClient.checkQueryExecutionState id (resp :: rest)).1 =
        .error (AthenaClient.expectedFailure resp) := by
    simp [AthenaClient.checkQueryExecutionState, classifyState_terminal resp hterm]
  simp only [AthenaClient.query]
  obtain ⟨r, evs⟩ :
      ∃ p, AthenaClient.checkQueryExecutionState id (pre ++ resp :: rest) = p :=
    ⟨_, rfl⟩
  rw [evs] at hskip ⊢
  obtain ⟨res, tr⟩ := r
  have hres : res = .error (AthenaClient.expectedFailure resp) := by
    simpa using hskip.trans hhead
  subst hres
  rfl

/-- Witness for C4 at a concrete input: a QUEUED response followed by a
CANCELLED response makes `query` reject with the cancelled failure. -/
theorem c4_witness :
    (AthenaClient.query ⟨some "q1"⟩
        [AthenaClient.queuedResp, ⟨some .cancelled, none⟩]).1 =
      .error (.wrapped .cancelled) := by
  have h := c4_terminal_failure_rejects "q1" [AthenaClient.queuedResp]
    ⟨some .cancelled, none⟩ []
    (by intro r hr; simp at hr; subst hr; rfl)
    (by simp [AthenaClient.terminalFailureState])
  simpa using h

/-- Counterexample to C4 as stated: for a FAILED response whose
service-provided reason is the empty string, the code reports the reason
"Unknown reason", not the provided (empty) reason — the `||` fallback also
fires on an empty string. -/
theorem c4_counterexample :
    (AthenaClient.query ⟨some "q1"⟩ [⟨some .failed, some ""⟩]).1 =
      .error (.wrapped (.queryFailed "Unknown reason")) ∧
    "Unknown reason" ≠ "" := by
  exact ⟨rfl, by decide⟩

/-- Claim C6: `MappedQueryResultProcessor.processResults` fails with the
empty-or-undefined message exactly when the response carries no result set
at all, and returns the empty sequence without error when a result set is
present whose rows are absent or empty; the two outcomes are a rejection
and a successful empty result — never conflated. -/
theorem c6_empty_distinction (config : MappedProcessor.Config)
    (svc : MappedProcessor.Service) (id : String) :
    ((svc.pageFor none).resultSet = none →
      (MappedProcessor.processResults config svc id).1 =
        .error "Error processing results: Query results are empty or undefined") ∧
    (∀ rs, (svc.pageFor none).resultSet = some rs → rs.rows.getD [] = [] →
      (MappedProcessor.processResults config svc id).1 = .ok []) := by
  constructor
  · intro hnone
    simp [MappedProcessor.processResults, MappedProcessor.fetchQueryResults, hnone]
  · intro rs hsome hrows
    match hr : rs.rows with
    | none =>
      simp [MappedProcessor.processResults, MappedProcessor.fetchQueryResults,
        hsome, MappedProcessor.extractRows, hr]
    | some l =>
      rw [hr] at hrows
      simp at hrows
      subst hrows
      simp [MappedProcessor.processResults, MappedProcessor.fetchQueryResults,
        hsome, MappedProcessor.extractRows, hr]

/-- Witness for C6 at concrete inputs: a response without a result set is
rejected; a response whose result set has zero rows yields the empty
sequence. -/
theorem c6_witness :
    (MappedProcessor.processResults ⟨none, none⟩
        (MappedProcessor.Service.mk fun _ => ⟨none, none⟩) "q1").1 =
      .error "Error processing results: Query results are empty or undefined" ∧
    (MappedProcessor.processResults ⟨none, none⟩
        (MappedProcessor.Service.mk fun _ => ⟨some ⟨some []⟩, none⟩) "q1").1 =
      .ok [] := by
  refine ⟨(c6_empty_distinction ⟨none, none⟩ _ "q1").1 rfl, ?_⟩
  exact (c6_empty_distinction ⟨none, none⟩
    (MappedProcessor.Service.mk fun _ => ⟨some ⟨some []⟩, none⟩) "q1").2 ⟨some []⟩ rfl rfl

/-- The code's row mapping agrees with the amended claim's mapping: a cell
is kept exactly when its position has a header and that header is not the
empty string. -/
theorem mapRowToObject_eq_amended (row : MappedProcessor.RowT) (headers : List String) :
    MappedProcessor.mapRowToObject row headers =
      MappedProcessor.mapRowAmended row headers := by
  unfold MappedProcessor.mapRowToObject MappedProcessor.mapRowAmended
  congr 1
  funext m iv
  match hg : headers.get? iv.1 with
  | none =>
    rw [List.get?_eq_getElem?] at hg
    have : headers.getD iv.1 "" = "" := by
      simp [List.getD, hg]
    simp [this, hg, List.get?_eq_getElem?]
  | some h =>
    rw [List.get?_eq_getElem?] at hg
    have : headers.getD iv.1 "" = h := by
      simp [List.getD, hg]
    by_cases hh : h = "" <;> simp [this, hg, hh, List.get?_eq_getElem?]

/-- Header extraction agrees with the claim's headers: each first-row
cell's value, empty string when absent; zero header cells is the failure
case. -/
theorem extractHeaders_eq_claimed (r0 : MappedProcessor.RowT)
    (rows : List MappedProcessor.RowT) :
    MappedProcessor.extractHeaders (r0 :: rows) =
      (if MappedProcessor.claimedHeaders r0 = [] then
        .error "No headers found in the result set"
      else .ok (MappedProcessor.claimedHeaders r0)) := by
  unfold MappedProcessor.extractHeaders MappedProcessor.claimedHeaders
  match hd : r0.data with
  | none => simp [hd]
  | some [] => simp [hd]
  | some (c :: cs) => simp [hd]

/-- Claim C7 (amended): for a result set whose first row yields at least
one header cell, every subsequent row maps to the record associating the
header at each positional index with the cell's value (empty string when
absent), dropping cells at positions without a corresponding header and
also cells whose header is the empty string; zero header cells fail with
the no-headers message. -/
theorem c7_header_row_mapping (config : MappedProcessor.Config)
    (svc : MappedProcessor.Service) (id : String)
    (rs : MappedProcessor.ResultSetT) (r0 : MappedProcessor.RowT)
    (rows : List MappedProcessor.RowT)
    (hrs : (svc.pageFor none).resultSet = some rs)
    (hrows : rs.rows = some (r0 :: rows)) :
    (MappedProcessor.claimedHeaders r0 ≠ [] →
      (MappedProcessor.processResults config svc id).1 =
        .ok (rows.map
          (fun r => MappedProcessor.mapRowAmended r (MappedProcessor.claimedHeaders r0)))) ∧
    (MappedProcessor.claimedHeaders r0 = [] →
      (MappedProcessor.processResults config svc id).1 =
        .error "Error processing results: No headers found in the result set") := by
  constructor
  · intro hne
    simp only [MappedProcessor.processResults, MappedProcessor.fetchQueryResults, hrs,
      MappedProcessor.extractRows, hrows, extractHeaders_eq_claimed, if_neg hne]
    simp [fun r => mapRowToObject_eq_amended r (MappedProcessor.claimedHeaders r0)]
  · intro he
    simp [MappedProcessor.processResults, MappedProcessor.fetchQueryResults, hrs,
      MappedProcessor.extractRows, hrows, extractHeaders_eq_claimed, if_pos he]

/-- Witness for C7 at the claim's concrete input: header row id, name and
one data row 1, Alice map to the single record id 1, name Alice. -/
theorem c7_witness :
    (MappedProcessor.processResults ⟨none, none⟩
        (MappedProcessor.Service.mk fun _ =>
          ⟨some ⟨some [⟨some [⟨some "id"⟩, ⟨some "name"⟩]⟩,
                       ⟨some [⟨some "1"⟩, ⟨some "Alice"⟩]⟩]⟩, none⟩) "q1").1 =
      .ok [[("id", "1"), ("name", "Alice")]] := by
  have h := (c7_header_row_mapping ⟨none, none⟩
    (MappedProcessor.Service.mk fun _ =>
      ⟨some ⟨some [⟨some [⟨some "id"⟩, ⟨some "name"⟩]⟩,
                   ⟨some [⟨some "1"⟩, ⟨some "Alice"⟩]⟩]⟩, none⟩) "q1"
    ⟨some [⟨some [⟨some "id"⟩, ⟨some "name"⟩]⟩, ⟨some [⟨some "1"⟩, ⟨some "Alice"⟩]⟩]⟩
    ⟨some [⟨some "id"⟩, ⟨some "name"⟩]⟩
    [⟨some [⟨some "1"⟩, ⟨some "Alice"⟩]⟩]
    rfl rfl).1 (by decide)
  rw [h]
  rfl

/-- Counterexample to C7 as stated: when the first row's only header cell
has no value, the header name is the empty string, and the claim prescribes
the record associating the empty-string name with the cell's value; the
code's guard `if (header)` instead drops the cell, producing the empty
record. -/
theorem c7_counterexample :
    (MappedProcessor.processResults ⟨none, none⟩
        (MappedProcessor.Service.mk fun _ =>
          ⟨some ⟨some [⟨some [⟨none⟩]⟩, ⟨some [⟨some "1"⟩]⟩]⟩, none⟩) "q1").1 =
      .ok [([] : List (String × String))] ∧
    MappedProcessor.mapRowClaimed ⟨some [⟨some "1"⟩]⟩
        (MappedProcessor.claimedHeaders ⟨some [⟨none⟩]⟩) = [("", "1")] ∧
    ([] : List (String × String)) ≠ [("", "1")] := by
  exact ⟨rfl, rfl, by decide⟩

/-- Processing an empty record stream completes without any sink batch,
for every configured batch size and any fuel. -/
theorem processStreamingResults_empty {R : Type} (batchSize fuel : Nat) :
    S3Processor.processStreamingResults batchSize ([] : List R) fuel =
      some ⟨.ok (), [], true⟩ := by
  cases fuel <;>
    simp [S3Processor.processStreamingResults, S3Processor.handlerRun,
      S3Processor.handlerGuard]

/-- Claim C8: construction of an `S3QueryResultProcessor` succeeds for
every configured batch size between 1 and 999, storing that size; for any
size above 999 it fails synchronously with the size-limit error (the
constructor is a pure function of its parameters — no network call or I/O
is involved); and the stored size is never re-checked at process time:
`processResults` runs to completion even when the state carries an
over-limit size. -/
theorem c8_batch_size_validation :
    (∀ b loc, 1 ≤ b → b ≤ 999 →
      S3Processor.mkProcessor ⟨some b, loc⟩ = .ok ⟨b, loc⟩) ∧
    (∀ b loc, 999 < b →
      S3Processor.mkProcessor ⟨some b, loc⟩ =
        .error "Batch size cannot be greater than 999") ∧
    (∀ b fuel, 999 < b →
      S3Processor.processResults ⟨b, "s3://test-bucket/results"⟩
          (S3Processor.Storage.mk fun _ _ => .ok (some ([] : List String))) "q1" fuel =
        some ⟨.ok (), [], true⟩) := by
  refine ⟨?_, ?_, ?_⟩
  · intro b loc h1 h2
    have hb0 : ¬ b = 0 := by omega
    have hbig : ¬ b > S3Processor.MAX_BATCH_SIZE := by
      simp [S3Processor.MAX_BATCH_SIZE]; omega
    simp [S3Processor.mkProcessor, S3Processor.validateBatchSize, hb0, hbig]
  · intro b loc h
    have hb0 : ¬ b = 0 := by omega
    have hbig : b > S3Processor.MAX_BATCH_SIZE := by
      simp [S3Processor.MAX_BATCH_SIZE]; omega
    simp [S3Processor.mkProcessor, S3Processor.validateBatchSize, hb0, hbig]
    rfl
  · intro b fuel _
    have hurl : S3Processor.parseS3Url
        ("s3://test-bucket/results" ++ "/" ++ "q1" ++ ".csv") =
        .ok ("test-bucket", "results/q1.csv") := by rfl
    simp only [S3Processor.processResults, hurl, S3Processor.fetchS3Object]
    exact processStreamingResults_empty b fuel

/-- Witness for C8 at concrete sizes: 500 is accepted and stored, 1000 is
rejected at construction, and a state carrying 1000 still processes an
empty stream without a size-limit failure. -/
theorem c8_witness :
    S3Processor.mkProcessor ⟨some 500, "s3://b/p"⟩ = .ok ⟨500, "s3://b/p"⟩ ∧
    S3Processor.mkProcessor ⟨some 1000, "s3://b/p"⟩ =
      .error "Batch size cannot be greater than 999" ∧
    S3Processor.processResults ⟨1000, "s3://test-bucket/results"⟩
        (S3Processor.Storage.mk fun _ _ => .ok (some ([] : List String))) "q1" 0 =
      some ⟨.ok (), [], true⟩ := by
  exact ⟨c8_batch_size_validation.1 500 "s3://b/p" (by decide) (by decide),
    c8_batch_size_validation.2.1 1000 "s3://b/p" (by decide),
    c8_batch_size_validation.2.2 1000 0 (by decide)⟩

/-- Claim C9: when the storage object resolved for the execution id is not
found (the send throws) or carries no body, `processResults` fails
immediately: the outcome is an error, no batch was handed to the `onData`
sink, and the completion callback was not invoked. -/
theorem c9_fetch_failure_is_immediate {R : Type} (st : S3Processor.ProcState)
    (storage : S3Processor.Storage R) (id : String) (fuel : Nat)
    (bucket key : String)
    (hurl : S3Processor.parseS3Url (st.s3OutputLocation ++ "/" ++ id ++ ".csv") =
      .ok (bucket, key)) :
    (∀ e, storage.getObject bucket key = .error e →
      S3Processor.processResults st storage id fuel = some ⟨.error e, [], false⟩) ∧
    (storage.getObject bucket key = .ok none →
      S3Processor.processResults st storage id fuel =
        some ⟨.error ("Failed to fetch file: " ++ bucket ++ "/" ++ key), [], false⟩) := by
  constructor
  · intro e he
    simp [S3Processor.processResults, hurl, S3Processor.fetchS3Object, he]
  · intro he
    simp [S3Processor.processResults, hurl, S3Processor.fetchS3Object, he]

/-- Witness for C9 at concrete inputs: a storage whose send throws, and one
answering without a body, both fail before any sink or completion call. -/
theorem c9_witness :
    S3Processor.processResults ⟨999, "s3://test-bucket/results"⟩
        (S3Processor.Storage.mk fun _ _ => .error "NoSuchKey") "q1" 7 =
      some ⟨.error "NoSuchKey", ([] : List (List String)), false⟩ ∧
    S3Processor.processResults ⟨999, "s3://test-bucket/results"⟩
        (S3Processor.Storage.mk fun _ _ => .ok (none : Option (List String))) "q1" 7 =
      some ⟨.error "Failed to fetch file: test-bucket/results/q1.csv", [], false⟩ := by
  constructor
  · exact (c9_fetch_failure_is_immediate ⟨999, "s3://test-bucket/results"⟩
      (S3Processor.Storage.mk fun _ _ => .error "NoSuchKey") "q1" 7
      "test-bucket" "results/q1.csv" rfl).1 "NoSuchKey" rfl
  · exact (c9_fetch_failure_is_immediate ⟨999, "s3://test-bucket/results"⟩
      (S3Processor.Storage.mk fun _ _ => .ok none) "q1" 7
      "test-bucket" "results/q1.csv" rfl).2 rfl

/-- The handler loop, once entered with a non-null record, re-emits that
record forever: after any number of iterations the state still satisfies
the (state-independent) loop guard, and the fueled run never returns. -/
theorem handlerRun_some_eq_none {R : Type} (r : R) (batchSize : Nat) :
    ∀ (fuel : Nat) (s : S3Processor.LoopSt R),
      S3Processor.handlerRun (some r) batchSize fuel s = none := by
  intro fuel
  induction fuel with
  | zero => intro s; simp [S3Processor.handlerRun, S3Processor.handlerGuard]
  | succ n ih =>
    intro s
    simp [S3Processor.handlerRun, S3Processor.handlerGuard, ih]

/-- With batch size 1, each loop iteration pushes the same first record and
flushes it: the emitted batches accumulate one duplicated singleton per
iteration. -/
theorem handlerIter_batchOne {R : Type} (r : R) :
    ∀ (k : Nat) (em : List (List R)),
      S3Processor.handlerIter r 1 k ⟨[], em⟩ =
        ⟨[], em ++ List.replicate k [r]⟩ := by
  intro k
  induction k with
  | zero => intro em; simp [S3Processor.handlerIter]
  | succ n ih =>
    intro em
    simp only [S3Processor.handlerIter, S3Processor.handlerStep]
    norm_num
    rw [ih]
    simp [List.replicate_succ]

/-- Claim C1, evaluated on the code at the failing input: the `readable`
handler reads one record before its `while (record !== null)` loop and
never reassigns it, so for a stream decoding to the single record "x" and
batch size 1 the loop never terminates (no fuel completes the run, so
`processResults` never resolves), while the sink is handed an unbounded
number of batches, each a duplicate of the first record: after `k`
iterations the sink has been invoked `k` times with the batch containing
"x" — against the claim's exactly ceil(1/1) = 1 invocation. -/
theorem c1_first_record_duplication :
    (∀ fuel, S3Processor.processStreamingResults 1 ["x"] fuel = none) ∧
    (∀ k, (S3Processor.handlerIter "x" 1 k ⟨[], []⟩).emitted =
      List.replicate k ["x"]) ∧
    (S3Processor.handlerIter "x" 1 2 ⟨[], []⟩).emitted.length = 2 ∧ 1 / 1 = 1 := by
  refine ⟨?_, ?_, ?_, rfl⟩
  · intro fuel
    simp [S3Processor.processStreamingResults, handlerRun_some_eq_none]
  · intro k
    rw [handlerIter_batchOne]
    simp
  · rw [handlerIter_batchOne]
    simp

/-- Claim C2, evaluated on the code at the failing input: with pagination
enabled by default and a first page carrying a continuation token, the
processor issues exactly one `GetQueryResultsCommand` — without the token —
and returns only the first page's mapped rows, dropping the second page the
claim requires. -/
theorem c2_no_pagination :
    MappedProcessor.processResults ⟨none, none⟩
        (MappedProcessor.Service.mk fun t =>
          match t with
          | none => ⟨some ⟨some [⟨some [⟨some "id"⟩]⟩, ⟨some [⟨some "1"⟩]⟩]⟩,
              some "token-2"⟩
          | some _ => ⟨some ⟨some [⟨some [⟨some "2"⟩]⟩]⟩, none⟩) "q1" =
      (.ok [[("id", "1")]], [⟨"q1", none, none⟩]) ∧
    [[("id", "1")]] ≠ [[("id", "1")], [("id", "2")]] := by
  exact ⟨rfl, by decide⟩

/-- Claim C10: every `flush` — also one with an empty batch —
unconditionally clears the first-write flag after its item loop; hence
after `flush([])` on a freshly created, previously absent file, the next
item flushed by the same instance is preceded by the comma-newline
separator although no item has ever been written. -/
theorem c10_empty_flush_clears_flag :
    (∀ (st : JsonFileAppender.AppSt) (batch : List Json),
      (JsonFileAppender.flush st batch).isFirstWrite = false) ∧
    (∀ item : Json,
      ((JsonFileAppender.flush
          (JsonFileAppender.flush JsonFileAppender.freshAppender []) [item]).fs.getD
        "").data =
        '[' :: '\n' :: ',' :: '\n' :: JsonModel.renderChars item) := by
  constructor
  · intro st batch
    rfl
  · intro item
    show ('[' :: '\n' :: ',' :: '\n' :: (JsonModel.renderChars item ++ []) : List Char) =
      '[' :: '\n' :: ',' :: '\n' :: JsonModel.renderChars item
    simp

/-! ### Round-trip of the JSON serializer through the parser -/

namespace JsonModel

/-- Whitespace skipping stops at a non-whitespace head. -/
theorem skipWs_cons_not_ws {c : Char} (cs : List Char) (h : isWs c = false) :
    skipWs (c :: cs) = c :: cs := by
  simp [skipWs, List.dropWhile, h]

/-- Whitespace skipping drops a whitespace head. -/
theorem skipWs_cons_ws {c : Char} (cs : List Char) (h : isWs c = true) :
    skipWs (c :: cs) = skipWs cs := by
  simp [skipWs, List.dropWhile, h]

/-- A value parse ignores a leading whitespace character. -/
theorem parseValue_cons_ws {c : Char} (fuel : Nat) (cs : List Char)
    (h : isWs c = true) :
    parseValue fuel (c :: cs) = parseValue fuel cs := by
  cases fuel with
  | zero => rfl
  | succ f => simp only [parseValue, skipWs_cons_ws cs h]

/-- Decimal digits decode their own characters. -/
theorem digit?_digitChar (d : Nat) (h : d < 10) : digit? (digitChar d) = some d := by
  interval_cases d <;> rfl

/-- Hexadecimal digits decode their own characters. -/
theorem hexVal?_hexChar (d : Nat) (h : d < 16) : hexVal? (hexChar d) = some d := by
  interval_cases d <;> rfl

/-- A digit character is not whitespace and is none of the characters the
value grammar dispatches on. -/
theorem digitChar_facts (d : Nat) (h : d < 10) :
    isWs (digitChar d) = false ∧ digitChar d ≠ ']' ∧ digitChar d ≠ ',' ∧
    digitChar d ≠ '\x7d' ∧ digitChar d ≠ 'n' ∧ digitChar d ≠ 't' ∧
    digitChar d ≠ 'f' ∧ digitChar d ≠ '"' ∧ digitChar d ≠ '-' ∧
    digitChar d ≠ '[' ∧ digitChar d ≠ '\x7b' := by
  interval_cases d <;> exact ⟨rfl, by decide⟩

/-- Any sufficient fuel yields the digits of `n` before the accumulator. -/
theorem natDigitsF_eq :
    ∀ (n fuel : Nat) (acc : List Char), n < fuel →
      natDigitsF fuel n acc = digitsOf n ++ acc := by
  intro n
  induction n using Nat.strong_induction_on with
  | _ n ih =>
    intro fuel acc hfuel
    match fuel, hfuel with
    | fuel + 1, _ =>
      by_cases h10 : n < 10
      · simp [natDigitsF, digitsOf, h10]
      · have hdiv : n / 10 < n := Nat.div_lt_self (by omega) (by omega)
        have step : ∀ (m : Nat) (a : List Char),
            natDigitsF (m + 1) n a = natDigitsF m (n / 10) (digitChar (n % 10) :: a) := by
          intro m a
          simp [natDigitsF, h10]
        rw [step fuel acc, ih (n / 10) hdiv fuel _ (by omega)]
        have hd : digitsOf n = digitsOf (n / 10) ++ [digitChar (n % 10)] := by
          rw [digitsOf, step n ([]), ih (n / 10) hdiv n _ (by omega)]
        rw [hd]
        simp

/-- Digits of a small number. -/
theorem digitsOf_lt10 (n : Nat) (h : n < 10) : digitsOf n = [digitChar n] := by
  simp [digitsOf, natDigitsF, h]

/-- Digits of a large number end in its last digit. -/
theorem digitsOf_ge10 (n : Nat) (h : 10 ≤ n) :
    digitsOf n = digitsOf (n / 10) ++ [digitChar (n % 10)] := by
  have hdiv : n / 10 < n := Nat.div_lt_self (by omega) (by omega)
  rw [digitsOf, show natDigitsF (n + 1) n [] =
      natDigitsF n (n / 10) (digitChar (n % 10) :: []) from by
    simp [natDigitsF, Nat.not_lt.2 h]]
  exact natDigitsF_eq (n / 10) n _ (by omega)

/-- The digit list of any number starts with a digit character. -/
theorem digitsOf_head :
    ∀ n : Nat, ∃ d t, d < 10 ∧ digitsOf n = digitChar d :: t := by
  intro n
  induction n using Nat.strong_induction_on with
  | _ n ih =>
    by_cases h10 : n < 10
    · exact ⟨n, [], h10, digitsOf_lt10 n h10⟩
    · have hdiv : n / 10 < n := Nat.div_lt_self (by omega) (by omega)
      obtain ⟨d, t, hd, ht⟩ := ih (n / 10) hdiv
      exact ⟨d, t ++ [digitChar (n % 10)], hd, by
        rw [digitsOf_ge10 n (by omega), ht]; rfl⟩

/-- The digit loop consumes exactly the digits of `n`, extending the
accumulator positionally. -/
theorem parseNatLoop_digitsOf :
    ∀ (n acc : Nat) (rest : List Char),
      parseNatLoop acc (digitsOf n ++ rest) =
        parseNatLoop (acc * 10 ^ (digitsOf n).length + n) rest := by
  intro n
  induction n using Nat.strong_induction_on with
  | _ n ih =>
    intro acc rest
    by_cases h10 : n < 10
    · rw [digitsOf_lt10 n h10]
      simp only [List.cons_append, List.nil_append, parseNatLoop,
        digit?_digitChar n h10, List.length_cons, List.length_nil]
      norm_num
    · have hdiv : n / 10 < n := Nat.div_lt_self (by omega) (by omega)
      rw [digitsOf_ge10 n (by omega), List.append_assoc, ih (n / 10) hdiv,
        List.cons_append, List.nil_append]
      simp only [parseNatLoop, digit?_digitChar (n % 10) (by omega)]
      congr 1
      rw [List.length_append, List.length_cons, List.length_nil, pow_succ]
      have hmod := Nat.div_add_mod n 10
      ring_nf
      omega

/-- The digit loop stops at a non-digit head. -/
theorem parseNatLoop_stop (acc : Nat) (rest : List Char)
    (h : noDigitHead rest = true) : parseNatLoop acc rest = (acc, rest) := by
  match rest with
  | [] => rfl
  | c :: t =>
    have : digit? c = none := by
      simpa [noDigitHead, Option.isNone_iff_eq_none] using h
    simp [parseNatLoop, this]

/-- Parsing the rendered digits of `n` followed by a non-digit yields `n`. -/
theorem parseNatLoop_render (n : Nat) (rest : List Char)
    (h : noDigitHead rest = true) :
    parseNatLoop 0 (digitsOf n ++ rest) = (n, rest) := by
  rw [parseNatLoop_digitsOf, parseNatLoop_stop _ _ h]
  simp

/-- Parsing a `\u`-escape of four hexadecimal digits decodes their value. -/
theorem parseStrChars_u (a b c2 d : Nat) (ha : a < 16) (hb : b < 16)
    (hc : c2 < 16) (hd : d < 16) (cs2 : List Char) :
    parseStrChars
        ('\\' :: 'u' :: hexChar a :: hexChar b :: hexChar c2 :: hexChar d :: cs2) =
      (parseStrChars cs2).map
        (fun p => (Char.ofNat (((a * 16 + b) * 16 + c2) * 16 + d) :: p.1, p.2)) := by
  simp [parseStrChars, hexVal?_hexChar _ ha, hexVal?_hexChar _ hb,
    hexVal?_hexChar _ hc, hexVal?_hexChar _ hd]

/-- Parsing the escaped body of a string followed by the closing quote
recovers exactly the original characters. -/
theorem parseStrChars_escape :
    ∀ (l rest : List Char),
      parseStrChars (escapeChars l ++ '"' :: rest) = some (l, rest) := by
  intro l
  induction l with
  | nil => intro rest; rfl
  | cons c l ih =>
    intro rest
    show parseStrChars ((escapeChar c ++ escapeChars l) ++ '"' :: rest) = _
    rw [List.append_assoc]
    by_cases h1 : c = '"'
    · subst h1; simp [escapeChar, parseStrChars, escDecode, ih]
    · by_cases h2 : c = '\\'
      · subst h2; simp [escapeChar, parseStrChars, escDecode, ih]
      · by_cases h3 : c = '\x08'
        · subst h3; simp [escapeChar, parseStrChars, escDecode, ih]
        · by_cases h4 : c = '\x0c'
          · subst h4; simp [escapeChar, parseStrChars, escDecode, ih]
          · by_cases h5 : c = '\n'
            · subst h5; simp [escapeChar, parseStrChars, escDecode, ih]
            · by_cases h6 : c = '\r'
              · subst h6; simp [escapeChar, parseStrChars, escDecode, ih]
              · by_cases h7 : c = '\t'
                · subst h7; simp [escapeChar, parseStrChars, escDecode, ih]
                · by_cases h8 : c.toNat < 32
                  · have hesc : escapeChar c =
                        ['\\', 'u', hexChar 0, hexChar 0, hexChar (c.toNat / 16),
                         hexChar (c.toNat % 16)] := by
                      simp [escapeChar, h1, h2, h3, h4, h5, h6, h7, h8]
                      rfl
                    rw [hesc]
                    rw [show ('\\' :: 'u' :: hexChar 0 :: hexChar 0 ::
                        hexChar (c.toNat / 16) :: hexChar (c.toNat % 16) :: []) ++
                        (escapeChars l ++ '"' :: rest) =
                        '\\' :: 'u' :: hexChar 0 :: hexChar 0 ::
                        hexChar (c.toNat / 16) :: hexChar (c.toNat % 16) ::
                        (escapeChars l ++ '"' :: rest) from rfl]
                    rw [parseStrChars_u 0 0 (c.toNat / 16) (c.toNat % 16)
                      (by omega) (by omega) (by omega) (by omega), ih]
                    simp
                    rw [show c.toNat / 16 * 16 + c.toNat % 16 = c.toNat by omega,
                      Char.ofNat_toNat]
                  · have hesc : escapeChar c = [c] := by
                      simp [escapeChar, h1, h2, h3, h4, h5, h6, h7, h8]
                    rw [hesc]
                    simp [parseStrChars, h1, h2, h8, ih]

/-- One successful fuel step of the value parser on a non-whitespace head. -/
theorem parseValue_succ_head (f : Nat) (c : Char) (cs1 : List Char)
    (h : isWs c = false) :
    parseValue (f + 1) (c :: cs1) =
      parseValueBody (parseValue f) (parseArrayRest f) (parseMember f)
        (parseObjRest f) c cs1 := by
  simp only [parseValue]
  rw [skipWs_cons_not_ws _ h]

/-- One successful fuel step of the array-tail parser on a non-whitespace
head. -/
theorem parseArrayRest_succ (f : Nat) (c : Char) (r : List Char)
    (h : isWs c = false) :
    parseArrayRest (f + 1) (c :: r) =
      parseArrayRestBody (parseValue f) (parseArrayRest f) c r := by
  simp only [parseArrayRest]
  rw [skipWs_cons_not_ws _ h]

/-- One successful fuel step of the member parser on a non-whitespace
head. -/
theorem parseMember_succ (f : Nat) (c : Char) (cs1 : List Char)
    (h : isWs c = false) :
    parseMember (f + 1) (c :: cs1) = parseMemberBody (parseValue f) c cs1 := by
  simp only [parseMember]
  rw [skipWs_cons_not_ws _ h]

/-- One successful fuel step of the object-tail parser on a non-whitespace
head. -/
theorem parseObjRest_succ (f : Nat) (c : Char) (r : List Char)
    (h : isWs c = false) :
    parseObjRest (f + 1) (c :: r) =
      parseObjRestBody (parseMember f) (parseObjRest f) c r := by
  simp only [parseObjRest]
  rw [skipWs_cons_not_ws _ h]

/-- Parsing rendered digits as a value yields the number. -/
theorem parseValue_digits (f m : Nat) (rest : List Char)
    (hr : noDigitHead rest = true) :
    parseValue (f + 1) (digitsOf m ++ rest) = some (.num (m : Int), rest) := by
  obtain ⟨d, t, hd, ht⟩ := digitsOf_head m
  obtain ⟨hws, -, -, -, hn, htc, hf, hq, hm, -, -⟩ := digitChar_facts d hd
  rw [ht, List.cons_append]
  rw [parseValue_succ_head f (digitChar d) (t ++ rest) hws]
  unfold parseValueBody
  rw [if_neg hn, if_neg htc, if_neg hf, if_neg hq, if_neg hm]
  simp only [digit?_digitChar d hd]
  rw [show (digitChar d :: (t ++ rest)) = digitsOf m ++ rest from by
    rw [ht, List.cons_append]]
  rw [parseNatLoop_render m rest hr]

/-- Parsing a minus sign followed by rendered digits yields the negated
number. -/
theorem parseValue_neg_digits (f m : Nat) (rest : List Char)
    (hr : noDigitHead rest = true) :
    parseValue (f + 1) ('-' :: (digitsOf m ++ rest)) =
      some (.num (-(m : Int)), rest) := by
  obtain ⟨d, t, hd, ht⟩ := digitsOf_head m
  rw [parseValue_succ_head f '-' (digitsOf m ++ rest) (by decide)]
  unfold parseValueBody
  rw [if_neg (by decide : ¬('-' = 'n')), if_neg (by decide : ¬('-' = 't')),
    if_neg (by decide : ¬('-' = 'f')), if_neg (by decide : ¬('-' = '"')),
    if_pos (rfl : '-' = '-')]
  rw [ht, List.cons_append]
  split
  next heq => exact absurd heq (by simp)
  next d0 tail heq =>
    obtain ⟨rfl, -⟩ : digitChar d = d0 ∧ t ++ rest = tail := by
      injection heq with h1 h2; exact ⟨h1, h2⟩
    simp only [digit?_digitChar d hd]
    rw [show (digitChar d :: (t ++ rest)) = digitsOf m ++ rest from by
      rw [ht, List.cons_append]]
    rw [parseNatLoop_render m rest hr]

/-- Every rendered value starts with a character that is not whitespace and
is none of the structural delimiters. -/
theorem renderChars_head (v : Json) :
    ∃ c t, renderChars v = c :: t ∧ isWs c = false ∧ c ≠ ']' ∧ c ≠ ',' ∧
      c ≠ '\x7d' := by
  match v with
  | .null => exact ⟨'n', _, rfl, by decide⟩
  | .bool true => exact ⟨'t', _, rfl, by decide⟩
  | .bool false => exact ⟨'f', _, rfl, by decide⟩
  | .str s => exact ⟨'"', _, rfl, by decide⟩
  | .arr l => exact ⟨'[', _, rfl, by decide⟩
  | .obj l => exact ⟨'\x7b', _, rfl, by decide⟩
  | .num n =>
    by_cases hn : n < 0
    · exact ⟨'-', digitsOf n.natAbs, by simp [renderChars, intChars, hn], by decide⟩
    · obtain ⟨d, t, hd, ht⟩ := digitsOf_head n.toNat
      obtain ⟨hws, hb, hc, hbr, -, -, -, -, -, -, -⟩ := digitChar_facts d hd
      exact ⟨digitChar d, t, by simp [renderChars, intChars, hn, ht],
        hws, hb, hc, hbr⟩

/-- The tail rendering of array elements, followed by the closing bracket,
never starts with a digit. -/
theorem noDigitHead_elemsTail (tl : JsonList) (rest : List Char) :
    noDigitHead (renderElemsTail tl ++ ']' :: rest) = true := by
  cases tl <;> rfl

/-- The tail rendering of object members, followed by the closing brace,
never starts with a digit. -/
theorem noDigitHead_membersTail (tl : JsonObj) (rest : List Char) :
    noDigitHead (renderMembersTail tl ++ '\x7d' :: rest) = true := by
  cases tl <;> rfl

/-- The value dispatch on an opening quote is the string parser. -/
theorem parseValueBody_quote (pv : List Char → Option (Json × List Char))
    (par : List Char → Option (JsonList × List Char))
    (pm : List Char → Option (String × Json × List Char))
    (por : List Char → Option (JsonObj × List Char)) (cs1 : List Char) :
    parseValueBody pv par pm por '"' cs1 =
      (parseStrChars cs1).map (fun p => (Json.str (String.mk p.1), p.2)) := rfl

/-- The value dispatch on an opening bracket. -/
theorem parseValueBody_lbracket (pv : List Char → Option (Json × List Char))
    (par : List Char → Option (JsonList × List Char))
    (pm : List Char → Option (String × Json × List Char))
    (por : List Char → Option (JsonObj × List Char)) (cs1 : List Char) :
    parseValueBody pv par pm por '[' cs1 =
      (match skipWs cs1 with
       | [] => none
       | c2 :: cs2 => parseArrayFirst pv par c2 cs2) := rfl

/-- The value dispatch on an opening brace. -/
theorem parseValueBody_lbrace (pv : List Char → Option (Json × List Char))
    (par : List Char → Option (JsonList × List Char))
    (pm : List Char → Option (String × Json × List Char))
    (por : List Char → Option (JsonObj × List Char)) (cs1 : List Char) :
    parseValueBody pv par pm por '\x7b' cs1 =
      (match skipWs cs1 with
       | [] => none
       | c2 :: cs2 => parseObjFirst pm por c2 cs2) := rfl

/-- The member dispatch on an opening quote. -/
theorem parseMemberBody_quote (pv : List Char → Option (Json × List Char))
    (cs1 : List Char) :
    parseMemberBody pv '"' cs1 =
      (match parseStrChars cs1 with
       | some (k, r1) => parseMemberColon pv k r1
       | none => none) := rfl

/-- The member continuation on a colon. -/
theorem parseMemberColon_colon (pv : List Char → Option (Json × List Char))
    (k : List Char) (r2 : List Char) :
    parseMemberColon pv k (':' :: r2) =
      (match pv r2 with
       | some (v, r3) => some (String.mk k, v, r3)
       | none => none) := rfl

/-- The array-tail dispatch on a comma. -/
theorem parseArrayRestBody_comma (pv : List Char → Option (Json × List Char))
    (par : List Char → Option (JsonList × List Char)) (r : List Char) :
    parseArrayRestBody pv par ',' r =
      (match pv r with
       | some (v, r1) =>
         match par r1 with
         | some (tl, r2) => some (JsonList.cons v tl, r2)
         | none => none
       | none => none) := rfl

/-- The object-tail dispatch on a comma. -/
theorem parseObjRestBody_comma (pm : List Char → Option (String × Json × List Char))
    (por : List Char → Option (JsonObj × List Char)) (r : List Char) :
    parseObjRestBody pm por ',' r =
      (match pm r with
       | some (k, v, r1) =>
         match por r1 with
         | some (tl, r2) => some (JsonObj.cons k v tl, r2)
         | none => none
       | none => none) := rfl

/-- The size of an object-member list is positive. -/
theorem sizeOf_jsonObj_pos : ∀ l : JsonObj, 0 < sizeOf l
  | .nil => by simp
  | .cons _ _ _ => by simp

mutual
/-- Parsing the rendering of a value followed by a non-digit remainder
recovers the value exactly. -/
theorem parseValue_render :
    ∀ (v : Json) (fuel : Nat) (rest : List Char),
      pfuel v ≤ fuel → noDigitHead rest = true →
      parseValue fuel (renderChars v ++ rest) = some (v, rest)
  | .null, fuel, rest, hf, _ => by
    obtain ⟨f, rfl⟩ : ∃ f, fuel = f + 1 := ⟨fuel - 1, by simp [pfuel] at hf; omega⟩
    rfl
  | .bool true, fuel, rest, hf, _ => by
    obtain ⟨f, rfl⟩ : ∃ f, fuel = f + 1 := ⟨fuel - 1, by simp [pfuel] at hf; omega⟩
    rfl
  | .bool false, fuel, rest, hf, _ => by
    obtain ⟨f, rfl⟩ : ∃ f, fuel = f + 1 := ⟨fuel - 1, by simp [pfuel] at hf; omega⟩
    rfl
  | .num n, fuel, rest, hf, hr => by
    obtain ⟨f, rfl⟩ : ∃ f, fuel = f + 1 := ⟨fuel - 1, by simp [pfuel] at hf; omega⟩
    by_cases hn : n < 0
    · rw [show renderChars (.num n) ++ rest = '-' :: (digitsOf n.natAbs ++ rest) from by
        simp [renderChars, intChars, hn]]
      rw [parseValue_neg_digits f n.natAbs rest hr]
      rw [show -((n.natAbs : Nat) : Int) = n from by omega]
    · rw [show renderChars (.num n) ++ rest = digitsOf n.toNat ++ rest from by
        simp [renderChars, intChars, hn]]
      rw [parseValue_digits f n.toNat rest hr]
      rw [show ((n.toNat : Nat) : Int) = n from by omega]
  | .str s, fuel, rest, hf, _ => by
    obtain ⟨f, rfl⟩ : ∃ f, fuel = f + 1 := ⟨fuel - 1, by simp [pfuel] at hf; omega⟩
    rw [show renderChars (.str s) ++ rest =
        '"' :: (escapeChars s.data ++ '"' :: rest) from by
      simp [quoteChars, renderChars]]
    rw [parseValue_succ_head f '"' _ (by decide)]
    rw [parseValueBody_quote]
    rw [parseStrChars_escape]
    rfl
  | .arr .nil, fuel, rest, hf, _ => by
    obtain ⟨f, rfl⟩ : ∃ f, fuel = f + 1 := ⟨fuel - 1, by simp [pfuel] at hf; omega⟩
    rfl
  | .arr (.cons v tl), fuel, rest, hf, hr => by
    obtain ⟨f, rfl⟩ : ∃ f, fuel = f + 1 :=
      ⟨fuel - 1, by simp [pfuel, pfuelList] at hf; omega⟩
    have hfv : pfuel v ≤ f := by simp [pfuel, pfuelList] at hf; omega
    have hftl : pfuelList tl ≤ f := by simp [pfuel, pfuelList] at hf; omega
    rw [show renderChars (.arr (.cons v tl)) ++ rest =
        '[' :: (renderChars v ++ (renderElemsTail tl ++ ']' :: rest)) from by
      simp [renderChars, renderElems]]
    rw [parseValue_succ_head f '[' _ (by decide)]
    rw [parseValueBody_lbracket]
    obtain ⟨c0, t0, hhead, hws0, hrb0, -, -⟩ := renderChars_head v
    rw [show renderChars v ++ (renderElemsTail tl ++ ']' :: rest) =
        c0 :: (t0 ++ (renderElemsTail tl ++ ']' :: rest)) from by
      rw [hhead, List.cons_append]]
    rw [skipWs_cons_not_ws _ hws0]
    show parseArrayFirst (parseValue f) (parseArrayRest f) c0
        (t0 ++ (renderElemsTail tl ++ ']' :: rest)) =
      some (Json.arr (JsonList.cons v tl), rest)
    unfold parseArrayFirst
    rw [if_neg hrb0]
    rw [show c0 :: (t0 ++ (renderElemsTail tl ++ ']' :: rest)) =
        renderChars v ++ (renderElemsTail tl ++ ']' :: rest) from by
      rw [hhead, List.cons_append]]
    rw [parseValue_render v f (renderElemsTail tl ++ ']' :: rest) hfv
      (noDigitHead_elemsTail tl rest)]
    simp only [parseArrayRest_render tl f rest hftl hr]
  | .obj .nil, fuel, rest, hf, _ => by
    obtain ⟨f, rfl⟩ : ∃ f, fuel = f + 1 := ⟨fuel - 1, by simp [pfuel] at hf; omega⟩
    rfl
  | .obj (.cons k v tl), fuel, rest, hf, hr => by
    obtain ⟨f, rfl⟩ : ∃ f, fuel = f + 1 :=
      ⟨fuel - 1, by simp [pfuel, pfuelObj] at hf; omega⟩
    have hfv : 1 + pfuel v ≤ f := by simp [pfuel, pfuelObj] at hf; omega
    have hftl : pfuelObj tl ≤ f := by simp [pfuel, pfuelObj] at hf; omega
    rw [show renderChars (.obj (.cons k v tl)) ++ rest =
        '\x7b' :: (quoteChars k ++ ':' :: renderChars v ++
          (renderMembersTail tl ++ '\x7d' :: rest)) from by
      simp [renderChars, renderMembers]]
    rw [parseValue_succ_head f '\x7b' _ (by decide)]
    rw [parseValueBody_lbrace]
    rw [show quoteChars k ++ ':' :: renderChars v ++
        (renderMembersTail tl ++ '\x7d' :: rest) =
        '"' :: (escapeChars k.data ++
          ('"' :: (':' :: (renderChars v ++
            (renderMembersTail tl ++ '\x7d' :: rest))))) from by
      simp [quoteChars]]
    rw [skipWs_cons_not_ws _ (by decide)]
    show parseObjFirst (parseMember f) (parseObjRest f) '"'
        (escapeChars k.data ++
          ('"' :: (':' :: (renderChars v ++
            (renderMembersTail tl ++ '\x7d' :: rest))))) =
      some (Json.obj (JsonObj.cons k v tl), rest)
    unfold parseObjFirst
    rw [if_neg (by decide : ¬('"' = '\x7d'))]
    rw [show ('"' :: (escapeChars k.data ++
        ('"' :: (':' :: (renderChars v ++
          (renderMembersTail tl ++ '\x7d' :: rest)))))) =
        quoteChars k ++ ':' :: renderChars v ++
          (renderMembersTail tl ++ '\x7d' :: rest) from by
      simp [quoteChars]]
    rw [parseMember_render k v f (renderMembersTail tl ++ '\x7d' :: rest) hfv
      (noDigitHead_membersTail tl rest)]
    simp only [parseObjRest_render tl f rest hftl hr]
termination_by v fuel rest hf hr => sizeOf v

/-- Parsing the rendered tail of an array (elements each preceded by a
comma, then the closing bracket) recovers the element list. -/
theorem parseArrayRest_render :
    ∀ (l : JsonList) (fuel : Nat) (rest : List Char),
      pfuelList l ≤ fuel → noDigitHead rest = true →
      parseArrayRest fuel (renderElemsTail l ++ ']' :: rest) = some (l, rest)
  | .nil, fuel, rest, hf, _ => by
    obtain ⟨f, rfl⟩ : ∃ f, fuel = f + 1 :=
      ⟨fuel - 1, by simp [pfuelList] at hf; omega⟩
    rfl
  | .cons v tl, fuel, rest, hf, hr => by
    obtain ⟨f, rfl⟩ : ∃ f, fuel = f + 1 :=
      ⟨fuel - 1, by simp [pfuelList] at hf; omega⟩
    have hfv : pfuel v ≤ f := by simp [pfuelList] at hf; omega
    have hftl : pfuelList tl ≤ f := by simp [pfuelList] at hf; omega
    rw [show renderElemsTail (.cons v tl) ++ ']' :: rest =
        ',' :: (renderChars v ++ (renderElemsTail tl ++ ']' :: rest)) from by
      simp [renderElemsTail]]
    rw [parseArrayRest_succ f ',' _ (by decide)]
    rw [parseArrayRestBody_comma]
    rw [parseValue_render v f (renderElemsTail tl ++ ']' :: rest) hfv
      (noDigitHead_elemsTail tl rest)]
    simp only [parseArrayRest_render tl f rest hftl hr]
termination_by l fuel rest hf hr => sizeOf l

/-- Parsing a rendered object member (quoted key, colon, value) recovers
the key and the value. -/
theorem parseMember_render :
    ∀ (k : String) (v : Json) (fuel : Nat) (rest : List Char),
      1 + pfuel v ≤ fuel → noDigitHead rest = true →
      parseMember fuel (quoteChars k ++ ':' :: renderChars v ++ rest) =
        some (k, v, rest)
  | k, v, fuel, rest, hf, hr => by
    obtain ⟨f, rfl⟩ : ∃ f, fuel = f + 1 := ⟨fuel - 1, by omega⟩
    have hfv : pfuel v ≤ f := by omega
    rw [show quoteChars k ++ ':' :: renderChars v ++ rest =
        '"' :: (escapeChars k.data ++ '"' :: (':' :: (renderChars v ++ rest))) from by
      simp [quoteChars]]
    rw [parseMember_succ f '"' _ (by decide)]
    rw [parseMemberBody_quote]
    rw [parseStrChars_escape]
    show parseMemberColon (parseValue f) k.data (':' :: (renderChars v ++ rest)) =
      some (k, v, rest)
    rw [parseMemberColon_colon]
    rw [parseValue_render v f rest hfv hr]
termination_by k v fuel rest hf hr => sizeOf v + 1

/-- Parsing the rendered tail of an object (members each preceded by a
comma, then the closing brace) recovers the member list. -/
theorem parseObjRest_render :
    ∀ (l : JsonObj) (fuel : Nat) (rest : List Char),
      pfuelObj l ≤ fuel → noDigitHead rest = true →
      parseObjRest fuel (renderMembersTail l ++ '\x7d' :: rest) = some (l, rest)
  | .nil, fuel, rest, hf, _ => by
    obtain ⟨f, rfl⟩ : ∃ f, fuel = f + 1 :=
      ⟨fuel - 1, by simp [pfuelObj] at hf; omega⟩
    rfl
  | .cons k v tl, fuel, rest, hf, hr => by
    obtain ⟨f, rfl⟩ : ∃ f, fuel = f + 1 :=
      ⟨fuel - 1, by simp [pfuelObj] at hf; omega⟩
    have hfv : 1 + pfuel v ≤ f := by simp [pfuelObj] at hf; omega
    have hftl : pfuelObj tl ≤ f := by simp [pfuelObj] at hf; omega
    rw [show renderMembersTail (.cons k v tl) ++ '\x7d' :: rest =
        ',' :: (quoteChars k ++ ':' :: renderChars v ++
          (renderMembersTail tl ++ '\x7d' :: rest)) from by
      simp [renderMembersTail]]
    rw [parseObjRest_succ f ',' _ (by decide)]
    rw [parseObjRestBody_comma]
    rw [parseMember_render k v f (renderMembersTail tl ++ '\x7d' :: rest) hfv
      (noDigitHead_membersTail tl rest)]
    simp only [parseObjRest_render tl f rest hftl hr]
termination_by l fuel rest hf hr => sizeOf l
decreasing_by
  all_goals simp_wf
  all_goals first
  | omega
  | (have hpos := sizeOf_jsonObj_pos tl; omega)
end

/-- The decimal rendering of a natural number is never empty. -/
theorem digitsOf_length_pos (n : Nat) : 0 < (digitsOf n).length := by
  by_cases h : n < 10
  · rw [digitsOf_lt10 n h]; simp
  · rw [digitsOf_ge10 n (by omega)]; simp

/-- The decimal rendering of an integer is never empty. -/
theorem intChars_length_pos (n : Int) : 0 < (intChars n).length := by
  unfold intChars
  by_cases hn : n < 0
  · rw [if_pos hn]; simp
  · rw [if_neg hn]; exact digitsOf_length_pos _

mutual
/-- The parsing fuel a value needs is at most twice its rendered length. -/
theorem pfuel_le : ∀ v : Json, pfuel v ≤ 2 * (renderChars v).length
  | .null => by
    simp only [pfuel, renderChars, List.length_cons, List.length_nil]
    omega
  | .bool true => by
    simp only [pfuel, renderChars, List.length_cons, List.length_nil]
    omega
  | .bool false => by
    simp only [pfuel, renderChars, List.length_cons, List.length_nil]
    omega
  | .num n => by
    have h := intChars_length_pos n
    simp only [pfuel, renderChars]
    omega
  | .str s => by
    simp only [pfuel, renderChars, quoteChars, List.length_cons,
      List.length_append, List.length_nil]
    omega
  | .arr .nil => by
    simp only [pfuel, pfuelList, renderChars, renderElems, List.length_cons,
      List.length_append, List.length_nil]
    omega
  | .arr (.cons v tl) => by
    have hv := pfuel_le v
    have htl := pfuelList_le tl
    simp only [pfuel, pfuelList, renderChars, renderElems, List.length_cons,
      List.length_append, List.length_nil]
    omega
  | .obj .nil => by
    simp only [pfuel, pfuelObj, renderChars, renderMembers, List.length_cons,
      List.length_append, List.length_nil]
    omega
  | .obj (.cons k v tl) => by
    have hv := pfuel_le v
    have htl := pfuelObj_le tl
    simp only [pfuel, pfuelObj, renderChars, renderMembers, quoteChars,
      List.length_cons, List.length_append, List.length_nil]
    omega
termination_by v => sizeOf v

/-- The fuel an array tail needs, against its rendered tail length. -/
theorem pfuelList_le : ∀ l : JsonList, pfuelList l ≤ 2 * (renderElemsTail l).length + 2
  | .nil => by
    simp only [pfuelList, renderElemsTail, List.length_nil]
    omega
  | .cons v tl => by
    have hv := pfuel_le v
    have htl := pfuelList_le tl
    simp only [pfuelList, renderElemsTail, List.length_cons, List.length_append]
    omega
termination_by l => sizeOf l

/-- The fuel an object tail needs, against its rendered tail length. -/
theorem pfuelObj_le : ∀ l : JsonObj, pfuelObj l ≤ 2 * (renderMembersTail l).length + 2
  | .nil => by
    simp only [pfuelObj, renderMembersTail, List.length_nil]
    omega
  | .cons k v tl => by
    have hv := pfuel_le v
    have htl := pfuelObj_le tl
    simp only [pfuelObj, renderMembersTail, quoteChars, List.length_cons,
      List.length_append, List.length_nil]
    omega
termination_by l => sizeOf l
end

end JsonModel

namespace JsonFileAppender

open JsonModel

/-- `stringify` holds exactly the rendered characters. -/
theorem stringify_data (v : Json) : (stringify v).data = renderChars v := rfl

/-- The file's element tail, followed by the closing newline-bracket,
never starts with a digit. -/
theorem noDigitHead_fileTail (items : List Json) :
    noDigitHead (fileElemsTail items ++ ['\n', ']']) = true := by
  cases items <;> rfl

/-- The fuel the flushed items need, against the separated tail length. -/
theorem pfuelList_fileTail_le : ∀ items : List Json,
    pfuelList (toJsonList items) ≤ 2 * (fileElemsTail items).length + 1
  | [] => by
    simp only [toJsonList, pfuelList, fileElemsTail, List.length_nil]
    omega
  | v :: tl => by
    have hv := pfuel_le v
    have ih := pfuelList_fileTail_le tl
    simp only [toJsonList, pfuelList, fileElemsTail, List.length_cons,
      List.length_append]
    omega

/-- The fuel the flushed items need, against the file's element length. -/
theorem pfuelList_fileElems_le (items : List Json) :
    pfuelList (toJsonList items) ≤ 2 * (fileElems items).length + 2 := by
  cases items with
  | nil =>
    simp only [toJsonList, pfuelList, fileElems, List.length_nil]
    omega
  | cons v tl =>
    have hv := pfuel_le v
    have htl := pfuelList_fileTail_le tl
    simp only [toJsonList, pfuelList, fileElems, List.length_append]
    omega

/-- Parsing the file's element tail (each item preceded by a comma-newline
separator, then the final newline and closing bracket) recovers the
items. -/
theorem parseArrayRest_file : ∀ (items : List Json) (fuel : Nat),
    pfuelList (toJsonList items) ≤ fuel →
    parseArrayRest fuel (fileElemsTail items ++ ['\n', ']']) =
      some (toJsonList items, [])
  | [], fuel, hf => by
    obtain ⟨f, rfl⟩ : ∃ f, fuel = f + 1 :=
      ⟨fuel - 1, by simp [toJsonList, pfuelList] at hf; omega⟩
    rfl
  | v :: tl, fuel, hf => by
    obtain ⟨f, rfl⟩ : ∃ f, fuel = f + 1 :=
      ⟨fuel - 1, by simp [toJsonList, pfuelList] at hf; omega⟩
    have hfv : pfuel v ≤ f := by simp [toJsonList, pfuelList] at hf; omega
    have hftl : pfuelList (toJsonList tl) ≤ f := by
      simp [toJsonList, pfuelList] at hf; omega
    rw [show fileElemsTail (v :: tl) ++ ['\n', ']'] =
        ',' :: ('\n' :: (renderChars v ++ (fileElemsTail tl ++ ['\n', ']']))) from by
      simp [fileElemsTail]]
    rw [parseArrayRest_succ f ',' _ (by decide)]
    rw [parseArrayRestBody_comma]
    rw [parseValue_cons_ws f _ (by decide)]
    rw [parseValue_render v f (fileElemsTail tl ++ ['\n', ']']) hfv
      (noDigitHead_fileTail tl)]
    simp only [parseArrayRest_file tl f hftl]
    rfl

/-- Parsing the whole file body (opening bracket-newline, elements, closing
newline-bracket) yields the array of the items with nothing left over. -/
theorem parseValue_fileShape (items : List Json) (fuel : Nat)
    (hf : 2 + pfuelList (toJsonList items) ≤ fuel) :
    parseValue fuel ('[' :: '\n' :: (fileElems items ++ ['\n', ']'])) =
      some (.arr (toJsonList items), []) := by
  obtain ⟨f, rfl⟩ : ∃ f, fuel = f + 1 := ⟨fuel - 1, by omega⟩
  cases items with
  | nil => rfl
  | cons v tl =>
    have hfv : pfuel v ≤ f := by simp [toJsonList, pfuelList] at hf; omega
    have hftl : pfuelList (toJsonList tl) ≤ f := by
      simp [toJsonList, pfuelList] at hf; omega
    rw [show ('[' :: '\n' :: (fileElems (v :: tl) ++ ['\n', ']']) : List Char) =
        '[' :: ('\n' :: (renderChars v ++ (fileElemsTail tl ++ ['\n', ']']))) from by
      simp [fileElems]]
    rw [parseValue_succ_head f '[' _ (by decide)]
    rw [parseValueBody_lbracket]
    rw [skipWs_cons_ws _ (by decide)]
    obtain ⟨c0, t0, hhead, hws0, hrb0, -, -⟩ := renderChars_head v
    rw [show renderChars v ++ (fileElemsTail tl ++ ['\n', ']']) =
        c0 :: (t0 ++ (fileElemsTail tl ++ ['\n', ']'])) from by
      rw [hhead, List.cons_append]]
    rw [skipWs_cons_not_ws _ hws0]
    show parseArrayFirst (parseValue f) (parseArrayRest f) c0
        (t0 ++ (fileElemsTail tl ++ ['\n', ']'])) =
      some (Json.arr (toJsonList (v :: tl)), [])
    unfold parseArrayFirst
    rw [if_neg hrb0]
    rw [show c0 :: (t0 ++ (fileElemsTail tl ++ ['\n', ']'])) =
        renderChars v ++ (fileElemsTail tl ++ ['\n', ']']) from by
      rw [hhead, List.cons_append]]
    rw [parseValue_render v f (fileElemsTail tl ++ ['\n', ']']) hfv
      (noDigitHead_fileTail tl)]
    simp only [parseArrayRest_file tl f hftl]
    rfl

/-- The characters the item loop appends once the first item has been
written are the file's separated element tail. -/
theorem writeItems_false_data : ∀ items : List Json,
    (writeItems false items).data = fileElemsTail items
  | [] => rfl
  | v :: tl => by
    rw [show writeItems false (v :: tl) =
        (",\n" ++ stringify v) ++ writeItems false tl from rfl]
    rw [String.data_append, String.data_append]
    rw [writeItems_false_data tl]
    show ([',', '\n'] : List Char) ++ renderChars v ++ fileElemsTail tl =
      fileElemsTail (v :: tl)
    simp [fileElemsTail]

/-- The separated tail rendering distributes over list append. -/
theorem fileElemsTail_append : ∀ (a b : List Json),
    fileElemsTail (a ++ b) = fileElemsTail a ++ fileElemsTail b
  | [], _ => rfl
  | v :: tl, b => by
    simp [fileElemsTail, fileElemsTail_append tl b]

/-- Once the file holds some non-empty content, every further flush only
appends separated items: the final content is the starting content
followed by the separated tails of all remaining batches. -/
theorem runFlushes_fs_data : ∀ (bs : List (List Json)) (s : String) (flag : Bool),
    s.length ≠ 0 →
    ((runFlushes ⟨some s, flag⟩ bs).fs.getD "").data =
      s.data ++ fileElemsTail bs.flatten
  | [], s, _, _ => by simp [runFlushes, fileElemsTail]
  | b :: rest, s, flag, h => by
    show ((runFlushes (flush ⟨some s, flag⟩ b) rest).fs.getD "").data = _
    rw [show flush ⟨some s, flag⟩ b =
        ⟨some (s ++ writeItems (decide (s.length = 0)) b), false⟩ from rfl]
    rw [show (decide (s.length = 0)) = false from by simp [h]]
    rw [runFlushes_fs_data rest (s ++ writeItems false b) false (by
      rw [String.length_append]
      have hw : 0 ≤ (writeItems false b).length := Nat.zero_le _
      omega)]
    rw [String.data_append, writeItems_false_data b]
    simp [fileElemsTail_append, List.append_assoc]

/-- Closing only appends the newline and the closing bracket. -/
theorem fileAfter_eq (batches : List (List Json)) :
    fileAfter batches =
      ((runFlushes freshAppender batches).fs.getD "") ++ "\n]" := rfl

/-- The file contents after flushing batches (non-empty, and either
starting with a non-empty batch or all empty) and closing: the opening
bracket-newline, the separated items, the closing newline-bracket. -/
theorem fileAfter_data (batches : List (List Json)) (hne : batches ≠ [])
    (hg : goodBatches batches) :
    (fileAfter batches).data =
      '[' :: '\n' :: (fileElems batches.flatten ++ ['\n', ']']) := by
  obtain ⟨b, rest, rfl⟩ : ∃ b rest, batches = b :: rest := by
    cases batches with
    | nil => exact absurd rfl hne
    | cons b rest => exact ⟨b, rest, rfl⟩
  rw [fileAfter_eq, String.data_append]
  cases hg with
  | inl hhead =>
    have hb : b ≠ [] := by simpa using hhead
    obtain ⟨i0, more, rfl⟩ : ∃ i0 more, b = i0 :: more := by
      cases b with
      | nil => exact absurd rfl hb
      | cons i0 more => exact ⟨i0, more, rfl⟩
    rw [show runFlushes freshAppender ((i0 :: more) :: rest) =
        runFlushes ⟨some ("[\n" ++ (("" ++ stringify i0) ++ writeItems false more)),
          false⟩ rest from rfl]
    rw [runFlushes_fs_data rest _ false (by
      rw [String.length_append]
      have h2 : ("[\n" : String).length = 2 := rfl
      omega)]
    have h1 : ("[\n" : String).data = ['[', '\n'] := rfl
    have h2 : ("\n]" : String).data = ['\n', ']'] := rfl
    have h3 : ("" : String).data = ([] : List Char) := rfl
    simp [String.data_append, h1, h2, h3, stringify_data, writeItems_false_data,
      fileElems, fileElemsTail_append, List.append_assoc]
  | inr hflat =>
    have h0 : b ++ rest.flatten = [] := by simpa using hflat
    obtain ⟨rfl, hrf⟩ := List.append_eq_nil.mp h0
    rw [show runFlushes freshAppender (([] : List Json) :: rest) =
        runFlushes ⟨some ("[\n" ++ ""), false⟩ rest from rfl]
    rw [runFlushes_fs_data rest _ false (by decide)]
    rw [hrf]
    rw [show (([] :: rest : List (List Json))).flatten = [] from by
      simpa using hflat]
    rfl

end JsonFileAppender

/-- C5: after N >= 1 flush calls on a fresh `JsonFileAppender` whose target
file is initially absent, followed by one close, the file's full contents
parse (`JSON.parse`) as the JSON array holding the concatenation, in order,
of all flushed items — under the proviso (see the counterexample) that no
empty batch is flushed before the first non-empty one: the first batch is
non-empty, or every batch is empty. -/
theorem c5_appender_roundtrip (batches : List (List Json))
    (hne : batches ≠ []) (hg : JsonFileAppender.goodBatches batches) :
    JsonModel.parseJson (JsonFileAppender.fileAfter batches) =
      some (.arr (JsonModel.toJsonList batches.flatten)) := by
  show JsonModel.parseJsonChars (JsonFileAppender.fileAfter batches).data = _
  rw [JsonFileAppender.fileAfter_data batches hne hg]
  unfold JsonModel.parseJsonChars
  rw [JsonFileAppender.parseValue_fileShape batches.flatten _ (by
    have h1 := JsonFileAppender.pfuelList_fileElems_le batches.flatten
    simp only [List.length_cons, List.length_append, List.length_nil]
    omega)]
  rfl

/-- Witness for C5: flushing `[{"a":1}]` then `[{"b":2}]` and closing
yields a file that parses back to the array `[{"a":1},{"b":2}]`. -/
theorem c5_witness :
    (([[Json.obj (.cons "a" (.num 1) .nil)], [Json.obj (.cons "b" (.num 2) .nil)]]
        : List (List Json)) ≠ []) ∧
    JsonFileAppender.goodBatches
      [[Json.obj (.cons "a" (.num 1) .nil)], [Json.obj (.cons "b" (.num 2) .nil)]] ∧
    JsonModel.parseJson (JsonFileAppender.fileAfter
        [[Json.obj (.cons "a" (.num 1) .nil)], [Json.obj (.cons "b" (.num 2) .nil)]]) =
      some (.arr (JsonModel.toJsonList
        [Json.obj (.cons "a" (.num 1) .nil), Json.obj (.cons "b" (.num 2) .nil)])) :=
  ⟨by simp, Or.inl (by simp),
    c5_appender_roundtrip
      [[Json.obj (.cons "a" (.num 1) .nil)], [Json.obj (.cons "b" (.num 2) .nil)]]
      (by simp) (Or.inl (by simp))⟩

/-- Counterexample to C5 exactly as stated: the claim quantifies over every
sequence of N >= 1 flush calls, but flushing the empty batch first and then
`[{"a":1}]` produces the file `[\n,\n\x7b"a":1\x7d\n]` — `JSON.parse`
rejects it (the flag cleared by the empty flush inserts a separator before
the first item ever written), so the contents do not parse as the array of
the flushed items. -/
theorem c5_counterexample :
    JsonModel.parseJson (JsonFileAppender.fileAfter
      [[], [Json.obj (.cons "a" (.num 1) .nil)]]) = none ∧
    (none : Option Json) ≠
      some (.arr (JsonModel.toJsonList [Json.obj (.cons "a" (.num 1) .nil)])) :=
  ⟨rfl, by simp⟩
